import Mathlib

/-!
# Inventory stack allocation of `economy-service`

A shallow embedding of `pkg/service/v1/storage.go`:
`GetExistingStorageItems`, `GiveToExistingStorageItems` and `GiveItem`.

Modelling conventions.

* `int64` values are integers (`Int`) in the `int64` range.  The two subtractions of the
  fill loop (`item.StackMaxCount - existingStorageItem.Amount` and
  `remainder -= existingStorageItemIncrease`) wrap around as in Go (`wrapInt64`).  The other
  subtractions of `GiveItem` never leave the `int64` range and are written without
  wrap-around: `remainder--` counts a positive remainder down to 0, and
  `remainder -= resultAmount` takes from a positive remainder amounts `≥ 0` that exceed it in
  total by less than `2 ^ 63`.
* `float64(x)`, the `float64` division and `math.Floor` are modelled exactly (IEEE-754
  binary64, round to nearest, ties to even) on the positive operands that reach them; the
  conversion `int(x)` of a value that does not fit is the one of amd64 (`intOfFloat64`).
* The repositories are collaborators.  Reads are functions of the environment, every write
  (`IncreaseItemAmount`, `storageRepository.GiveItem`) is recorded in a list of calls, and
  `writeOk n` says whether the write issued after `n` earlier successful writes succeeds.
* `random.GenerateRandomInt` is a function of the environment.
-/

namespace EconomyService

/-! ## Data model (pkg/api/v1) -/

/-- The enum `Item_StackBalancingMethod`. -/
inductive StackBalancingMethod where
  | DEFAULT
  | BALANCED_FILL_EXISTING_STACKS
  | UNBALANCED_FILL_EXISTING_STACKS
  | UNBALANCED_CREATE_NEW_STACKS
  deriving DecidableEq, Repr

/-- The message `Item`, with the fields the allocation reads. -/
structure Item where
  Id : String
  Stackable : Bool
  StackMaxCount : Int
  StackBalancingMethod : StackBalancingMethod
  deriving DecidableEq, Repr

/-- The message `StorageItem`: one stack. -/
structure StorageItem where
  Id : String
  Item : Item
  Amount : Int
  deriving DecidableEq, Repr

/-- The message `Storage`, with its stacks in the order the repository returns them. -/
structure Storage where
  Items : List StorageItem
  deriving DecidableEq, Repr

/-- The message `GiveItemRequest`; `MinAmount` and `MaxAmount` are the fields of `req.GetAmount()`. -/
structure GiveItemRequest where
  Api : String
  StorageId : String
  ItemId : String
  MinAmount : Int
  MaxAmount : Int
  deriving DecidableEq, Repr

/-- The message `GiveItemResponse`. -/
structure GiveItemResponse where
  StorageId : String
  Amount : Int
  deriving DecidableEq, Repr

/-- A write issued to the storage repository. -/
inductive RepoCall where
  | IncreaseItemAmount (storageItemId : String) (amount : Int)
  | GiveItem (storageId : String) (itemId : String) (amount : Int)
  deriving DecidableEq, Repr

deriving instance DecidableEq for Except

/-- The collaborators of the service, as seen by one request. -/
structure Env where
  /-- True when `s.checkAPI` accepts the api version. -/
  checkAPI : String → Bool
  /-- The sampled value `random.GenerateRandomInt(min, max)`. -/
  GenerateRandomInt : Int → Int → Int
  /-- The lookup `itemRepository.Get`; `none` is an error. -/
  itemGet : String → Option Item
  /-- The lookup `storageRepository.Get`; `none` is an error. -/
  storageGet : String → Option Storage
  /-- Whether the write issued after `n` successful writes succeeds. -/
  writeOk : Nat → Bool

/-! ## binary64 arithmetic on positive operands -/

/-- Number of binary digits of `n`, for `n < 2 ^ fuel`. -/
def bitLen : Nat → Nat → Nat
  | 0, _ => 0
  | fuel + 1, n => if n = 0 then 0 else bitLen fuel (n / 2) + 1

/-- The integer nearest to `N / D`, ties going to the even one. -/
def roundNearestEven (N D : Nat) : Nat :=
  let q := N / D
  let r := N % D
  if 2 * r < D then q
  else if D < 2 * r then q + 1
  else if q % 2 = 0 then q else q + 1

/-- The conversion `float64(n)` of a positive `int64`: `n` rounded to 53 significant bits.
The result is again an integer. -/
def float64 (n : Nat) : Nat :=
  let k := bitLen 64 n - 53
  roundNearestEven n (2 ^ k) * 2 ^ k

/-- The value `math.Floor(a / b)` for two positive binary64 values `a`, `b` that are integers:
the quotient is rounded to 53 significant bits (its binade `2 ^ e ≤ a / b < 2 ^ (e + 1)` is
found from the bit lengths), then floored. -/
def floorDivF64 (a b : Nat) : Nat :=
  let e0 : Int := (bitLen 64 a : Int) - (bitLen 64 b : Int)
  let e : Int := if b * 2 ^ e0.toNat ≤ a * 2 ^ (-e0).toNat then e0 else e0 - 1
  let s : Int := 52 - e
  let n := roundNearestEven (a * 2 ^ s.toNat) (b * 2 ^ (-s).toNat)
  n * 2 ^ (-s).toNat / 2 ^ s.toNat

/-- The expression `math.Floor(float64(remainder) / float64(item.StackMaxCount))` of `GiveItem`,
which is evaluated only where both operands are positive. -/
def fullStacksToCreate (remainder stackMaxCount : Int) : Nat :=
  floorDivF64 (float64 remainder.toNat) (float64 stackMaxCount.toNat)

/-- The conversion `int(x)` of a binary64 value `x ≥ 0` that is an integer: the value itself
when it fits, and `-2 ^ 63` (the result of the amd64 conversion) when it is `2 ^ 63` or
more. -/
def intOfFloat64 (x : Nat) : Int :=
  if x < 9223372036854775808 then (x : Int) else -9223372036854775808

/-! ## int64 arithmetic -/

/-- The `int64` value of an integer: reduction modulo `2 ^ 64` into `[-2 ^ 63, 2 ^ 63)`. -/
def wrapInt64 (x : Int) : Int :=
  (x + 9223372036854775808) % 18446744073709551616 - 9223372036854775808

/-! ## GetExistingStorageItems -/

/-- The loop of `GetExistingStorageItems` over `storage.Items`, with the slice built so far. -/
def existingLoop (itemID : String) : List StorageItem → List StorageItem → List StorageItem
  | [], existingStorageItems => existingStorageItems
  | storageItem :: rest, existingStorageItems =>
    if storageItem.Item.Id ≠ itemID then
      existingLoop itemID rest existingStorageItems
    else if storageItem.Item.StackMaxCount > 0 ∧
        storageItem.Amount ≥ storageItem.Item.StackMaxCount then
      existingLoop itemID rest existingStorageItems
    else
      existingLoop itemID rest (existingStorageItems ++ [storageItem])

/-- The function `GetExistingStorageItems`. -/
def GetExistingStorageItems (env : Env) (storageID itemID : String) :
    Except String (List StorageItem) :=
  match env.storageGet storageID with
  | none => .error "storageRepository.Get failed"
  | some storage => .ok (existingLoop itemID storage.Items [])

/-! ## GiveToExistingStorageItems -/

/-- What `GiveToExistingStorageItems` hands back: the remainder, the error if any, and the
writes that succeeded so far. -/
structure FillResult where
  remainder : Int
  err : Option String
  calls : List RepoCall
  deriving DecidableEq, Repr

/-- The loop of `GiveToExistingStorageItems` for `item.StackMaxCount > 0`. -/
def fillLoop (writeOk : Nat → Bool) (stackMaxCount : Int) :
    List StorageItem → Int → List RepoCall → FillResult
  | [], remainder, calls => ⟨remainder, none, calls⟩
  | existingStorageItem :: rest, remainder, calls =>
    let existingStorageItemRemainder := wrapInt64 (stackMaxCount - existingStorageItem.Amount)
    let existingStorageItemIncrease :=
      if remainder ≥ existingStorageItemRemainder then existingStorageItemRemainder
      else remainder
    if writeOk calls.length then
      fillLoop writeOk stackMaxCount rest (wrapInt64 (remainder - existingStorageItemIncrease))
        (calls ++ [RepoCall.IncreaseItemAmount existingStorageItem.Id
          existingStorageItemIncrease])
    else
      ⟨remainder, some "IncreaseItemAmount failed", calls⟩

/-- The function `GiveToExistingStorageItems`; `calls` are the writes already made. -/
def GiveToExistingStorageItems (env : Env) (storageID itemID : String) (remainder : Int)
    (item : Item) (calls : List RepoCall) : FillResult :=
  if !item.Stackable then ⟨remainder, none, calls⟩
  else if item.StackBalancingMethod ≠ StackBalancingMethod.BALANCED_FILL_EXISTING_STACKS ∧
      item.StackBalancingMethod ≠ StackBalancingMethod.UNBALANCED_FILL_EXISTING_STACKS then
    ⟨remainder, none, calls⟩
  else
    match GetExistingStorageItems env storageID itemID with
    | .error e => ⟨remainder, some e, calls⟩
    | .ok existingStorageItems =>
      match existingStorageItems with
      | [] => ⟨remainder, none, calls⟩
      | storageItem :: others =>
        -- `if item.StackMaxCount == 0`
        let afterUncapped : FillResult :=
          if item.StackMaxCount = 0 then
            if env.writeOk calls.length then
              ⟨0, none, calls ++ [RepoCall.IncreaseItemAmount storageItem.Id remainder]⟩
            else
              ⟨remainder, some "IncreaseItemAmount failed", calls⟩
          else ⟨remainder, none, calls⟩
        match afterUncapped.err with
        | some e => ⟨afterUncapped.remainder, some e, afterUncapped.calls⟩
        | none =>
          -- `if item.StackMaxCount > 0`
          if item.StackMaxCount > 0 then
            fillLoop env.writeOk item.StackMaxCount (storageItem :: others)
              afterUncapped.remainder afterUncapped.calls
          else
            ⟨afterUncapped.remainder, none, afterUncapped.calls⟩

/-! ## GiveItem -/

/-- The loop `for i := 0; i < loops; i++` of `GiveItem` for an unstackable item: `loops` is the
number of iterations still to run. -/
def unstackableLoop (writeOk : Nat → Bool) (storageId itemId : String) :
    Nat → Int → List RepoCall → FillResult
  | 0, remainder, calls => ⟨remainder, none, calls⟩
  | loops + 1, remainder, calls =>
    if writeOk calls.length then
      unstackableLoop writeOk storageId itemId loops (remainder - 1)
        (calls ++ [RepoCall.GiveItem storageId itemId 1])
    else
      ⟨remainder, some "storageRepository.GiveItem failed", calls⟩

/-- The slice `resultAmounts` that `GiveItem` builds for a stackable item; the loop
`for i := 0; i < int(fullStacksToCreate); i++` runs `int(fullStacksToCreate)` times when
that bound is positive and not at all otherwise. -/
def resultAmounts (item : Item) (remainder : Int) : List Int :=
  let resultAmounts : List Int := []
  let resultAmounts :=
    if item.StackMaxCount = 0 then resultAmounts ++ [remainder] else resultAmounts
  if item.StackMaxCount > 0 then
    (resultAmounts ++
        List.replicate (intOfFloat64 (fullStacksToCreate remainder item.StackMaxCount)).toNat
          item.StackMaxCount)
      ++ [remainder.tmod item.StackMaxCount]
  else resultAmounts

/-- The loop `for _, resultAmount := range resultAmounts` of `GiveItem`. -/
def createLoop (writeOk : Nat → Bool) (storageId itemId : String) :
    List Int → Int → List RepoCall → FillResult
  | [], remainder, calls => ⟨remainder, none, calls⟩
  | resultAmount :: rest, remainder, calls =>
    if writeOk calls.length then
      createLoop writeOk storageId itemId rest (remainder - resultAmount)
        (calls ++ [RepoCall.GiveItem storageId itemId resultAmount])
    else
      ⟨remainder, some "storageRepository.GiveItem failed", calls⟩

/-- The allocation steps of `GiveItem`, from the call of `GiveToExistingStorageItems` up to
the last iteration of the new-stack loop: the fill of existing stacks, the loop for an
unstackable item and the creation of new stacks.  The result holds the remainder that reaches
the final check of `GiveItem`, or the error on which the function returns early. -/
def giveItemSteps (env : Env) (req : GiveItemRequest) (item : Item) (remainder : Int) :
    FillResult :=
  let filled := GiveToExistingStorageItems env req.StorageId req.ItemId remainder item []
  match filled.err with
  | some e => ⟨filled.remainder, some e, filled.calls⟩
  | none =>
    -- `if item.Stackable == false && remainder > 0`
    let unstacked : FillResult :=
      if item.Stackable = false ∧ filled.remainder > 0 then
        unstackableLoop env.writeOk req.StorageId req.ItemId filled.remainder.toNat
          filled.remainder filled.calls
      else ⟨filled.remainder, none, filled.calls⟩
    match unstacked.err with
    | some e => ⟨unstacked.remainder, some e, unstacked.calls⟩
    | none =>
      -- `if item.Stackable == true && remainder > 0`
      if item.Stackable = true ∧ unstacked.remainder > 0 then
        createLoop env.writeOk req.StorageId req.ItemId
          (resultAmounts item unstacked.remainder) unstacked.remainder unstacked.calls
      else ⟨unstacked.remainder, none, unstacked.calls⟩

/-- The outcome of `GiveItem`: the response or the error, and the writes that succeeded. -/
structure GiveItemResult where
  response : Except String GiveItemResponse
  calls : List RepoCall
  deriving DecidableEq

/-- The function `GiveItem`. -/
def GiveItem (env : Env) (req : GiveItemRequest) : GiveItemResult :=
  if !env.checkAPI req.Api then ⟨.error "unsupported API version", []⟩
  else
    let amount := env.GenerateRandomInt req.MinAmount req.MaxAmount
    let remainder := amount
    match env.itemGet req.ItemId with
    | none => ⟨.error "itemRepository.Get failed", []⟩
    | some item =>
      let placed := giveItemSteps env req item remainder
      match placed.err with
      | some e => ⟨.error e, placed.calls⟩
      | none =>
        if placed.remainder > 0 then ⟨.error "something went wrong", placed.calls⟩
        else ⟨.ok ⟨req.StorageId, amount⟩, placed.calls⟩

/-! ## Reference notions used in the statements -/

/-- A stack is full when its item has a positive cap and the amount has reached it. -/
def isFull (storageItem : StorageItem) : Bool :=
  decide (storageItem.Item.StackMaxCount > 0) &&
    decide (storageItem.Amount ≥ storageItem.Item.StackMaxCount)

/-- A stack is fillable for `itemID` when it holds that item and is not full. -/
def isFillable (itemID : String) (storageItem : StorageItem) : Bool :=
  decide (storageItem.Item.Id = itemID) && !isFull storageItem

/-- The greedy deltas: for each amount in turn, the minimum of what is left and of the room
under the cap, what is left being reduced by that minimum. -/
def greedyDeltas (stackMaxCount : Int) : List Int → Int → List Int
  | [], _ => []
  | amount :: rest, remainder =>
    min remainder (stackMaxCount - amount) ::
      greedyDeltas stackMaxCount rest (remainder - min remainder (stackMaxCount - amount))

/-- The `IncreaseItemAmount` calls on the given stacks with the given deltas, in order. -/
def increaseCalls (existing : List StorageItem) (deltas : List Int) : List RepoCall :=
  List.zipWith (fun storageItem delta => RepoCall.IncreaseItemAmount storageItem.Id delta)
    existing deltas

/-- The deltas passed to `IncreaseItemAmount`, in call order. -/
def increaseDeltas (calls : List RepoCall) : List Int :=
  calls.filterMap fun call =>
    match call with
    | RepoCall.IncreaseItemAmount _ amount => some amount
    | RepoCall.GiveItem _ _ _ => none

/-- The amounts of the stacks created through `storageRepository.GiveItem`, in call order. -/
def createdAmounts (calls : List RepoCall) : List Int :=
  calls.filterMap fun call =>
    match call with
    | RepoCall.IncreaseItemAmount _ _ => none
    | RepoCall.GiveItem _ _ amount => some amount

/-- Modelled from the spec: the persistence call `IncreaseStackAmount(stackId, delta)`
(`storageRepository.IncreaseItemAmount`, whose code is not part of the sources) adds `delta`
to the amount of the stack with that id. -/
def increaseItemAmount (storageItemId : String) (amount : Int) (items : List StorageItem) :
    List StorageItem :=
  items.map fun storageItem =>
    if storageItem.Id = storageItemId then
      { storageItem with Amount := storageItem.Amount + amount }
    else storageItem

/-- Modelled from the spec: the persistence call `CreateStack(storageId, itemId, amount)`
(`storageRepository.GiveItem`, whose code is not part of the sources) adds one stack of the
item with that amount, under the id `newId`. -/
def createStack (item : Item) (newId : String) (amount : Int) (items : List StorageItem) :
    List StorageItem :=
  items ++ [⟨newId, item, amount⟩]

/-- The stacks of a storage after the writes `calls`, in order; `freshId n` is the id given
to a stack created when the storage holds `n` stacks. -/
def applyCalls (item : Item) (freshId : Nat → String) :
    List RepoCall → List StorageItem → List StorageItem
  | [], items => items
  | RepoCall.IncreaseItemAmount storageItemId amount :: calls, items =>
    applyCalls item freshId calls (increaseItemAmount storageItemId amount items)
  | RepoCall.GiveItem _ _ amount :: calls, items =>
    applyCalls item freshId calls (createStack item (freshId items.length) amount items)

/-! ## Concrete scenarios -/

/-- An environment in which every collaborator succeeds: one catalog item, one storage with
the given stacks, and a sampler that returns its lower bound. -/
def scenarioEnv (item : Item) (existing : List StorageItem) : Env where
  checkAPI := fun _ => true
  GenerateRandomInt := fun minAmount _ => minAmount
  itemGet := fun _ => some item
  storageGet := fun _ => some ⟨existing⟩
  writeOk := fun _ => true

/-- A request for the storage `"storage"` and the item `"item"` with `min = max = amount`. -/
def scenarioReq (amount : Int) : GiveItemRequest :=
  ⟨"v1", "storage", "item", amount, amount⟩

/-- A catalog item with id `"item"`. -/
def scenarioItem (stackable : Bool) (stackMaxCount : Int) (method : StackBalancingMethod) :
    Item :=
  ⟨"item", stackable, stackMaxCount, method⟩

/-! ## binary64: the floored quotient is exact below `2 ^ 53` -/

theorem bitLen_le (fuel : Nat) : ∀ (n k : Nat), n < 2 ^ k → bitLen fuel n ≤ k := by
  induction fuel with
  | zero => intro n k _; simp [bitLen]
  | succ f ih =>
    intro n k hn
    unfold bitLen
    by_cases h0 : n = 0
    · simp [h0]
    · rw [if_neg h0]
      cases k with
      | zero => simp at hn; exact absurd hn h0
      | succ k =>
        have : n / 2 < 2 ^ k := by
          rw [Nat.div_lt_iff_lt_mul (by norm_num)]
          rw [pow_succ] at hn
          exact hn
        have := ih (n / 2) k this
        omega

theorem lt_two_pow_bitLen (fuel : Nat) : ∀ n : Nat, n < 2 ^ fuel → n < 2 ^ bitLen fuel n := by
  induction fuel with
  | zero => intro n hn; simpa [bitLen] using hn
  | succ f ih =>
    intro n hn
    unfold bitLen
    by_cases h0 : n = 0
    · simp [h0]
    · rw [if_neg h0]
      have h2 : n / 2 < 2 ^ f := by
        rw [Nat.div_lt_iff_lt_mul (by norm_num)]
        rw [pow_succ] at hn
        exact hn
      have := ih (n / 2) h2
      rw [pow_succ]
      omega

theorem two_pow_bitLen_le (fuel : Nat) :
    ∀ n : Nat, n ≠ 0 → 2 ^ bitLen (fuel + 1) n ≤ 2 * n := by
  induction fuel with
  | zero =>
    intro n hn
    simp only [bitLen, hn, if_false]
    omega
  | succ f ih =>
    intro n hn
    rw [bitLen, if_neg hn]
    by_cases h2 : n / 2 = 0
    · rw [h2]
      simp only [bitLen, if_true]
      omega
    · have := ih (n / 2) h2
      rw [pow_succ]
      omega

theorem roundNearestEven_cases (N D : Nat) :
    roundNearestEven N D = N / D ∨
      (roundNearestEven N D = N / D + 1 ∧ D ≤ 2 * (N % D)) := by
  unfold roundNearestEven
  by_cases h1 : 2 * (N % D) < D
  · left; simp [h1]
  · by_cases h2 : D < 2 * (N % D)
    · right; simp only [h1, h2, if_true, if_false]; exact ⟨trivial, by omega⟩
    · by_cases h3 : N / D % 2 = 0
      · left; simp [h1, h2, h3]
      · right; simp only [h1, h2, h3, if_false]; exact ⟨trivial, by omega⟩

theorem float64_exact (n : Nat) (hn : n < 2 ^ 53) : float64 n = n := by
  have hk : bitLen 64 n - 53 = 0 := by
    have := bitLen_le 64 n 53 hn
    omega
  simp [float64, hk, roundNearestEven, Nat.mod_one]

/-- The rounded and floored quotient is the integer quotient when the numerator is below
`2 ^ 53` and the scaled quotient `a * 2 ^ S / b` is at least `2 ^ 52`. -/
theorem roundNearestEven_div (a b S : Nat) (hb : 0 < b) (ha : a < 2 ^ 53)
    (hlow : 2 ^ 52 * b ≤ a * 2 ^ S) :
    roundNearestEven (a * 2 ^ S) b / 2 ^ S = a / b := by
  have hP : 0 < 2 ^ S := Nat.pow_pos (by norm_num)
  generalize hPdef : 2 ^ S = P at hP hlow ⊢
  have hdm := Nat.div_add_mod (a * P) b
  have hmod : a * P % b < b := Nat.mod_lt _ hb
  have hq1 : a / b * b ≤ a := Nat.div_mul_le_self a b
  have hq2 : a < (a / b + 1) * b := by
    rw [Nat.mul_comm]
    exact Nat.lt_mul_div_succ a hb
  generalize a / b = q at hq1 hq2 ⊢
  generalize hN : a * P = N at hdm hmod hlow
  -- `q * P ≤ N / b`
  have hlo : q * P ≤ N / b := by
    rw [Nat.le_div_iff_mul_le hb]
    calc q * P * b = q * b * P := by ring
      _ ≤ a * P := Nat.mul_le_mul_right P hq1
      _ = N := hN
  -- `N + P ≤ (q + 1) * b * P`
  have hup : N + P ≤ (q + 1) * b * P := by
    calc N + P = (a + 1) * P := by rw [← hN]; ring
      _ ≤ (q + 1) * b * P := Nat.mul_le_mul_right P hq2
  have ht : N / b < (q + 1) * P := by
    rw [Nat.div_lt_iff_lt_mul hb]
    calc N < N + P := by omega
      _ ≤ (q + 1) * b * P := hup
      _ = (q + 1) * P * b := by ring
  apply Nat.div_eq_of_lt_le
  · rcases roundNearestEven_cases N b with h | ⟨h, _⟩ <;> rw [h] <;> omega
  · rcases roundNearestEven_cases N b with h | ⟨h, hhalf⟩
    · rw [h]; exact ht
    · rw [h]
      by_contra hcon
      have hge : (q + 1) * P ≤ N / b + 1 := by omega
      have h1 : (q + 1) * b * P ≤ b * (N / b) + b := by
        calc (q + 1) * b * P = b * ((q + 1) * P) := by ring
          _ ≤ b * (N / b + 1) := Nat.mul_le_mul_left b hge
          _ = b * (N / b) + b := by ring
      have hb2 : 2 * P ≤ b := by omega
      have h2 : 2 ^ 53 * P ≤ a * P := by
        calc 2 ^ 53 * P = 2 ^ 52 * (2 * P) := by ring
          _ ≤ 2 ^ 52 * b := Nat.mul_le_mul_left _ hb2
          _ ≤ N := hlow
          _ = a * P := hN.symm
      have := Nat.le_of_mul_le_mul_right h2 hP
      omega

/-- The rounding and flooring done in `floorDivF64` at an exponent `e` with
`2 ^ e ≤ a / b` gives the integer quotient when `a < 2 ^ 53`. -/
theorem floorDivF64_at (a b : Nat) (e : Int) (hb : 0 < b) (ha : a < 2 ^ 53)
    (hbound : b * 2 ^ e.toNat ≤ a * 2 ^ (-e).toNat) :
    roundNearestEven (a * 2 ^ (52 - e).toNat) (b * 2 ^ (-(52 - e)).toNat)
        * 2 ^ (-(52 - e)).toNat / 2 ^ (52 - e).toNat = a / b := by
  have he : e ≤ 52 := by
    by_contra hcon
    have h1 : (-e).toNat = 0 := by omega
    have h2 : 53 ≤ e.toNat := by omega
    rw [h1, pow_zero, Nat.mul_one] at hbound
    have h3 : 2 ^ 53 ≤ 2 ^ e.toNat := Nat.pow_le_pow_right (by norm_num) h2
    have h4 : 2 ^ e.toNat ≤ b * 2 ^ e.toNat := Nat.le_mul_of_pos_left _ hb
    omega
  have hs : (-(52 - e)).toNat = 0 := by omega
  rw [hs, pow_zero, Nat.mul_one, Nat.mul_one]
  apply roundNearestEven_div a b _ hb ha
  by_cases hpos : 0 ≤ e
  · have h1 : (-e).toNat = 0 := by omega
    have h2 : 52 = (52 - e).toNat + e.toNat := by omega
    rw [h1, pow_zero, Nat.mul_one] at hbound
    calc 2 ^ 52 * b = 2 ^ ((52 - e).toNat + e.toNat) * b := by rw [← h2]
      _ = b * 2 ^ e.toNat * 2 ^ (52 - e).toNat := by rw [pow_add]; ring
      _ ≤ a * 2 ^ (52 - e).toNat := Nat.mul_le_mul_right _ hbound
  · have h1 : e.toNat = 0 := by omega
    have h2 : (52 - e).toNat = (-e).toNat + 52 := by omega
    rw [h1, pow_zero, Nat.mul_one] at hbound
    calc 2 ^ 52 * b = b * 2 ^ 52 := by ring
      _ ≤ a * 2 ^ (-e).toNat * 2 ^ 52 := Nat.mul_le_mul_right _ hbound
      _ = a * 2 ^ (52 - e).toNat := by rw [h2, pow_add]; ring

/-- The exponent one below the difference of the bit lengths is a lower bound of the binade
of `a / b`. -/
theorem binade_lower (a b : Nat) (ha0 : 0 < a) (hb : b < 2 ^ 64) :
    b * 2 ^ (((bitLen 64 a : Int) - (bitLen 64 b : Int)) - 1).toNat
      ≤ a * 2 ^ (-(((bitLen 64 a : Int) - (bitLen 64 b : Int)) - 1)).toNat := by
  have hA : 2 ^ bitLen 64 a ≤ 2 * a := two_pow_bitLen_le 63 a (by omega)
  have hB : b < 2 ^ bitLen 64 b := lt_two_pow_bitLen 64 b hb
  generalize bitLen 64 a = LA at hA
  generalize bitLen 64 b = LB at hB
  by_cases hle : LB + 1 ≤ LA
  · have h1 : (((LA : Int) - (LB : Int)) - 1).toNat = LA - LB - 1 := by omega
    have h2 : (-(((LA : Int) - (LB : Int)) - 1)).toNat = 0 := by omega
    rw [h1, h2, pow_zero, Nat.mul_one]
    have h3 : LA = LB + (LA - LB - 1) + 1 := by omega
    rw [h3, pow_succ, pow_add] at hA
    have h4 : b * 2 ^ (LA - LB - 1) ≤ 2 ^ LB * 2 ^ (LA - LB - 1) :=
      Nat.mul_le_mul_right _ (le_of_lt hB)
    omega
  · have h1 : (((LA : Int) - (LB : Int)) - 1).toNat = 0 := by omega
    have h2 : (-(((LA : Int) - (LB : Int)) - 1)).toNat = LB - LA + 1 := by omega
    rw [h1, h2, pow_zero, Nat.mul_one, pow_succ]
    have h3 : LB = LA + (LB - LA) := by omega
    rw [h3, pow_add] at hB
    have h4 : 2 ^ LA * 2 ^ (LB - LA) ≤ 2 * a * 2 ^ (LB - LA) := Nat.mul_le_mul_right _ hA
    have h5 : a * (2 ^ (LB - LA) * 2) = 2 * a * 2 ^ (LB - LA) := by ring
    omega

/-- Below `2 ^ 53` the binary64 computation of the floored quotient is exact. -/
theorem floorDivF64_exact (a b : Nat) (ha0 : 0 < a) (ha : a < 2 ^ 53) (hb0 : 0 < b)
    (hb : b < 2 ^ 53) : floorDivF64 a b = a / b := by
  unfold floorDivF64
  dsimp only
  split
  · rename_i htest
    exact floorDivF64_at a b _ hb0 ha htest
  · exact floorDivF64_at a b _ hb0 ha (binade_lower a b ha0 (by omega))

/-- Below `2 ^ 53` the number of full stacks computed by `GiveItem` is the integer quotient. -/
theorem fullStacksToCreate_exact (remainder stackMaxCount : Int) (hr0 : 0 < remainder)
    (hr : remainder < 2 ^ 53) (hm0 : 0 < stackMaxCount) (hm : stackMaxCount < 2 ^ 53) :
    (fullStacksToCreate remainder stackMaxCount : Int) = remainder / stackMaxCount := by
  unfold fullStacksToCreate
  have h1 : remainder.toNat < 2 ^ 53 := by omega
  have h2 : stackMaxCount.toNat < 2 ^ 53 := by omega
  rw [float64_exact _ h1, float64_exact _ h2,
    floorDivF64_exact _ _ (by omega) h1 (by omega) h2]
  rw [Int.natCast_div, Int.toNat_of_nonneg (le_of_lt hr0), Int.toNat_of_nonneg (le_of_lt hm0)]

/-! ## GetExistingStorageItems: the finder is the order-preserving filter -/

theorem existingLoop_eq_filter (itemID : String) (items acc : List StorageItem) :
    existingLoop itemID items acc = acc ++ items.filter (isFillable itemID) := by
  induction items generalizing acc with
  | nil => simp [existingLoop]
  | cons si rest ih =>
    unfold existingLoop
    by_cases hid : si.Item.Id = itemID
    · by_cases hfull : si.Item.StackMaxCount > 0 ∧ si.Amount ≥ si.Item.StackMaxCount
      · have hf : isFillable itemID si = false := by
          simp [isFillable, isFull, hid, hfull.1, hfull.2]
        simp [hid, hfull, ih, List.filter_cons, hf]
      · have hf : isFillable itemID si = true := by
          simp only [isFillable, isFull, hid, decide_True, Bool.true_and, Bool.not_eq_true',
            Bool.and_eq_false_imp, decide_eq_true_eq, decide_eq_false_iff_not]
          intro h1 h2
          exact hfull ⟨h1, h2⟩
        simp [hid, hfull, ih, List.filter_cons, hf]
    · have hf : isFillable itemID si = false := by simp [isFillable, hid]
      simp [hid, ih, List.filter_cons, hf]

/-- C8. For every storage that the repository returns and every item id,
`GetExistingStorageItems` returns, without error, exactly the stacks of the storage whose
item id is the requested one and that are not full (full: `StackMaxCount > 0` and
`Amount ≥ StackMaxCount`), in the order of the storage; when there is no such stack the
result is the empty list, still without error. -/
theorem GetExistingStorageItems_eq_filter (env : Env) (storageID itemID : String)
    (storage : Storage) (hget : env.storageGet storageID = some storage) :
    GetExistingStorageItems env storageID itemID
        = .ok (storage.Items.filter fun si =>
            decide (si.Item.Id = itemID) &&
              !(decide (si.Item.StackMaxCount > 0) &&
                decide (si.Amount ≥ si.Item.StackMaxCount)))
      ∧ ((∀ si ∈ storage.Items, ¬ (si.Item.Id = itemID ∧
            ¬ (si.Item.StackMaxCount > 0 ∧ si.Amount ≥ si.Item.StackMaxCount))) →
          GetExistingStorageItems env storageID itemID = .ok []) := by
  have h : GetExistingStorageItems env storageID itemID
      = .ok (storage.Items.filter (isFillable itemID)) := by
    simp [GetExistingStorageItems, hget, existingLoop_eq_filter]
  refine ⟨h, ?_⟩
  intro hnone
  rw [h]
  congr 1
  rw [List.filter_eq_nil_iff]
  intro si hsi
  have := hnone si hsi
  intro hfill
  simp only [isFillable, isFull, Bool.and_eq_true, decide_eq_true_eq, Bool.not_eq_true',
    Bool.and_eq_false_imp, decide_eq_false_iff_not] at hfill
  exact this ⟨hfill.1, fun hf => hfill.2 hf.1 hf.2⟩

/-- Witness of C8: a storage with a stack of another item, a full stack, and two fillable
stacks; the finder returns the two fillable stacks in storage order. -/
theorem GetExistingStorageItems_eq_filter_witness :
    GetExistingStorageItems
        (scenarioEnv (scenarioItem true 10 StackBalancingMethod.DEFAULT)
          [⟨"a", ⟨"other", true, 10, StackBalancingMethod.DEFAULT⟩, 1⟩,
           ⟨"b", scenarioItem true 10 StackBalancingMethod.DEFAULT, 10⟩,
           ⟨"c", scenarioItem true 10 StackBalancingMethod.DEFAULT, 9⟩,
           ⟨"d", scenarioItem true 10 StackBalancingMethod.DEFAULT, 0⟩])
        "storage" "item"
      = .ok [⟨"c", scenarioItem true 10 StackBalancingMethod.DEFAULT, 9⟩,
             ⟨"d", scenarioItem true 10 StackBalancingMethod.DEFAULT, 0⟩] :=
  ((GetExistingStorageItems_eq_filter
      (scenarioEnv (scenarioItem true 10 StackBalancingMethod.DEFAULT)
        [⟨"a", ⟨"other", true, 10, StackBalancingMethod.DEFAULT⟩, 1⟩,
         ⟨"b", scenarioItem true 10 StackBalancingMethod.DEFAULT, 10⟩,
         ⟨"c", scenarioItem true 10 StackBalancingMethod.DEFAULT, 9⟩,
         ⟨"d", scenarioItem true 10 StackBalancingMethod.DEFAULT, 0⟩])
      "storage" "item" _ rfl).1).trans (by decide)

/-! ## GiveToExistingStorageItems -/

/-- The two early returns of `GiveToExistingStorageItems`. -/
theorem GiveToExistingStorageItems_of_gate (env : Env) (storageID itemID : String)
    (remainder : Int) (item : Item) (calls : List RepoCall)
    (hgate : item.Stackable = false ∨
      (item.StackBalancingMethod ≠ StackBalancingMethod.BALANCED_FILL_EXISTING_STACKS ∧
        item.StackBalancingMethod ≠ StackBalancingMethod.UNBALANCED_FILL_EXISTING_STACKS)) :
    GiveToExistingStorageItems env storageID itemID remainder item calls
      = ⟨remainder, none, calls⟩ := by
  unfold GiveToExistingStorageItems
  rcases hgate with h | h
  · simp [h]
  · by_cases hs : item.Stackable = true
    · simp [hs, h]
    · simp [hs]

/-- C7. Fill gate: when the item is unstackable, or its balancing method is neither
`BALANCED_FILL_EXISTING_STACKS` nor `UNBALANCED_FILL_EXISTING_STACKS` (so `DEFAULT` or
`UNBALANCED_CREATE_NEW_STACKS`), `GiveToExistingStorageItems` returns the remainder
unchanged, with no error and without issuing any write, for every environment (whatever the
storage holds), every remainder and every list of earlier writes. -/
theorem GiveToExistingStorageItems_gate (env : Env) (storageID itemID : String)
    (remainder : Int) (item : Item) (calls : List RepoCall)
    (hgate : item.Stackable = false ∨
      (item.StackBalancingMethod ≠ StackBalancingMethod.BALANCED_FILL_EXISTING_STACKS ∧
        item.StackBalancingMethod ≠ StackBalancingMethod.UNBALANCED_FILL_EXISTING_STACKS)) :
    GiveToExistingStorageItems env storageID itemID remainder item calls
      = ⟨remainder, none, calls⟩ :=
  GiveToExistingStorageItems_of_gate env storageID itemID remainder item calls hgate

/-- Witness of C7 (scenario C): cap 10, `DEFAULT`, one existing stack of 3, grant 7: the fill
step hands the 7 back untouched, and `GiveItem` issues a single write, the creation of one
stack of 7. -/
theorem GiveToExistingStorageItems_gate_witness :
    GiveToExistingStorageItems
        (scenarioEnv (scenarioItem true 10 StackBalancingMethod.DEFAULT)
          [⟨"a", scenarioItem true 10 StackBalancingMethod.DEFAULT, 3⟩])
        "storage" "item" 7 (scenarioItem true 10 StackBalancingMethod.DEFAULT) []
      = ⟨7, none, []⟩
    ∧ GiveItem
        (scenarioEnv (scenarioItem true 10 StackBalancingMethod.DEFAULT)
          [⟨"a", scenarioItem true 10 StackBalancingMethod.DEFAULT, 3⟩])
        (scenarioReq 7)
      = ⟨.ok ⟨"storage", 7⟩, [RepoCall.GiveItem "storage" "item" 7]⟩ :=
  ⟨GiveToExistingStorageItems_gate _ "storage" "item" 7
      (scenarioItem true 10 StackBalancingMethod.DEFAULT) [] (Or.inr (by decide)),
    by decide⟩

theorem greedyDeltas_length (cap : Int) (amounts : List Int) (remainder : Int) :
    (greedyDeltas cap amounts remainder).length = amounts.length := by
  induction amounts generalizing remainder with
  | nil => rfl
  | cons a rest ih => simp [greedyDeltas, ih]

/-- Inside the `int64` range the wrap-around does nothing. -/
theorem wrapInt64_eq (x : Int) (hlo : -(2 ^ 63) ≤ x) (hhi : x < 2 ^ 63) : wrapInt64 x = x := by
  unfold wrapInt64
  omega

/-- The wrap-around never increases a value that is `≥ 0`. -/
theorem wrapInt64_le (x : Int) (hx : 0 ≤ x) : wrapInt64 x ≤ x := by
  unfold wrapInt64
  omega

/-- The wrap-around is visible outside the data model: cap `2 ^ 63 - 1`, one stack of amount
-1, remainder 5: the room `2 ^ 63` wraps to `-2 ^ 63`, which is the delta written, and
`-2 ^ 63 + 5` is returned. -/
theorem fillLoop_wraps :
    fillLoop (fun _ => true) (2 ^ 63 - 1)
        [⟨"a", scenarioItem true (2 ^ 63 - 1)
          StackBalancingMethod.BALANCED_FILL_EXISTING_STACKS, -1⟩] 5 []
      = ⟨-(2 ^ 63) + 5, none, [RepoCall.IncreaseItemAmount "a" (-(2 ^ 63))]⟩ := by
  decide

/-- The capped loop, when every write succeeds and the values are those of the data model
(amounts between 0 and the cap, everything in the `int64` range): one call per stack, with
the greedy deltas. -/
theorem fillLoop_eq_greedy (writeOk : Nat → Bool) (hok : ∀ n, writeOk n = true) (cap : Int)
    (xs : List StorageItem) (remainder : Int) (calls : List RepoCall)
    (hxs : ∀ x ∈ xs, 0 ≤ x.Amount ∧ x.Amount ≤ cap)
    (hcap : cap < 2 ^ 63)
    (hrem : -(2 ^ 63) ≤ remainder ∧ remainder < 2 ^ 63) :
    fillLoop writeOk cap xs remainder calls
      = ⟨remainder - (greedyDeltas cap (xs.map (·.Amount)) remainder).sum, none,
          calls ++ increaseCalls xs (greedyDeltas cap (xs.map (·.Amount)) remainder)⟩ := by
  induction xs generalizing remainder calls with
  | nil => simp [fillLoop, greedyDeltas, increaseCalls]
  | cons x rest ih =>
    have hx := hxs x (List.mem_cons_self _ _)
    have hroom : wrapInt64 (cap - x.Amount) = cap - x.Amount :=
      wrapInt64_eq _ (by omega) (by omega)
    have hmin : (if remainder ≥ cap - x.Amount then cap - x.Amount else remainder)
        = min remainder (cap - x.Amount) := by
      by_cases h : remainder ≥ cap - x.Amount
      · rw [if_pos h, min_eq_right h]
      · rw [if_neg h, min_eq_left (le_of_lt (not_le.mp h))]
    have hleft : 0 ≤ remainder - min remainder (cap - x.Amount)
        ∧ remainder - min remainder (cap - x.Amount) < 2 ^ 63 := by
      rcases le_total remainder (cap - x.Amount) with h | h
      · rw [min_eq_left h]; omega
      · rw [min_eq_right h]; omega
    have hsub : wrapInt64 (remainder - min remainder (cap - x.Amount))
        = remainder - min remainder (cap - x.Amount) :=
      wrapInt64_eq _ (by omega) hleft.2
    simp only [fillLoop, hok, if_true, hroom, hmin, hsub]
    rw [ih _ _ (fun y hy => hxs y (List.mem_cons_of_mem _ hy)) ⟨by omega, hleft.2⟩]
    simp only [List.map_cons, greedyDeltas, List.sum_cons, increaseCalls,
      List.zipWith_cons_cons, List.append_assoc, List.singleton_append]
    congr 1
    ring

/-- The function on a capped fill-existing item, given the list the finder returns. -/
theorem GiveToExistingStorageItems_capped (env : Env) (storageID itemID : String)
    (remainder : Int) (item : Item) (calls : List RepoCall) (xs : List StorageItem)
    (hstackable : item.Stackable = true)
    (hmethod : item.StackBalancingMethod = StackBalancingMethod.BALANCED_FILL_EXISTING_STACKS ∨
      item.StackBalancingMethod = StackBalancingMethod.UNBALANCED_FILL_EXISTING_STACKS)
    (hcap : item.StackMaxCount > 0)
    (hget : GetExistingStorageItems env storageID itemID = .ok xs) :
    GiveToExistingStorageItems env storageID itemID remainder item calls
      = fillLoop env.writeOk item.StackMaxCount xs remainder calls := by
  have hne : item.StackMaxCount ≠ 0 := ne_of_gt hcap
  have hm : ¬ (item.StackBalancingMethod ≠ StackBalancingMethod.BALANCED_FILL_EXISTING_STACKS ∧
      item.StackBalancingMethod ≠ StackBalancingMethod.UNBALANCED_FILL_EXISTING_STACKS) := by
    rcases hmethod with h | h <;> simp [h]
  unfold GiveToExistingStorageItems
  rw [hget]
  cases xs with
  | nil => simp [hstackable, hm, fillLoop]
  | cons x rest => simp [hstackable, hm, hne, hcap]

/-- C3. Greedy fill of capped stacks: for a stackable item with a fill-existing balancing
method and `StackMaxCount > 0`, when every write succeeds, `GiveToExistingStorageItems` issues
one `IncreaseItemAmount` call per fillable stack, in the order in which
`GetExistingStorageItems` returns them; the delta of each call is the minimum of the current
remainder and `StackMaxCount - stack.Amount`, the remainder then being reduced by that delta
(`greedyDeltas`); and the value returned is the initial remainder minus the sum of the
deltas, with no error.  The values are those of the data model, which keeps the `int64`
subtractions of the loop from wrapping: every fillable stack holds an amount between 0 and
the cap, and the cap and the remainder are `int64` values. -/
theorem GiveToExistingStorageItems_greedy (env : Env) (storageID itemID : String)
    (remainder : Int) (item : Item) (calls : List RepoCall) (xs : List StorageItem)
    (hstackable : item.Stackable = true)
    (hmethod : item.StackBalancingMethod = StackBalancingMethod.BALANCED_FILL_EXISTING_STACKS ∨
      item.StackBalancingMethod = StackBalancingMethod.UNBALANCED_FILL_EXISTING_STACKS)
    (hcap : item.StackMaxCount > 0)
    (hget : GetExistingStorageItems env storageID itemID = .ok xs)
    (hok : ∀ n, env.writeOk n = true)
    (hamounts : ∀ x ∈ xs, 0 ≤ x.Amount ∧ x.Amount ≤ item.StackMaxCount)
    (hcapmax : item.StackMaxCount < 2 ^ 63)
    (hrem : -(2 ^ 63) ≤ remainder ∧ remainder < 2 ^ 63) :
    GiveToExistingStorageItems env storageID itemID remainder item calls
      = ⟨remainder - (greedyDeltas item.StackMaxCount (xs.map (·.Amount)) remainder).sum, none,
          calls ++ increaseCalls xs
            (greedyDeltas item.StackMaxCount (xs.map (·.Amount)) remainder)⟩ := by
  rw [GiveToExistingStorageItems_capped env storageID itemID remainder item calls xs
    hstackable hmethod hcap hget]
  exact fillLoop_eq_greedy env.writeOk hok item.StackMaxCount xs remainder calls hamounts
    hcapmax hrem

/-- Witness of C3: cap 10, three fillable stacks of 8, 4 and 9 (and a full one that the
finder skips), remainder 7: the deltas are 2, 5 and 0, and 0 is returned. -/
theorem GiveToExistingStorageItems_greedy_witness :
    GiveToExistingStorageItems
        (scenarioEnv (scenarioItem true 10 StackBalancingMethod.BALANCED_FILL_EXISTING_STACKS)
          [⟨"a", scenarioItem true 10 StackBalancingMethod.BALANCED_FILL_EXISTING_STACKS, 8⟩,
           ⟨"b", scenarioItem true 10 StackBalancingMethod.BALANCED_FILL_EXISTING_STACKS, 10⟩,
           ⟨"c", scenarioItem true 10 StackBalancingMethod.BALANCED_FILL_EXISTING_STACKS, 4⟩,
           ⟨"d", scenarioItem true 10 StackBalancingMethod.BALANCED_FILL_EXISTING_STACKS, 9⟩])
        "storage" "item" 7
        (scenarioItem true 10 StackBalancingMethod.BALANCED_FILL_EXISTING_STACKS) []
      = ⟨0, none, [RepoCall.IncreaseItemAmount "a" 2, RepoCall.IncreaseItemAmount "c" 5,
          RepoCall.IncreaseItemAmount "d" 0]⟩ :=
  (GiveToExistingStorageItems_greedy
      (scenarioEnv (scenarioItem true 10 StackBalancingMethod.BALANCED_FILL_EXISTING_STACKS)
        [⟨"a", scenarioItem true 10 StackBalancingMethod.BALANCED_FILL_EXISTING_STACKS, 8⟩,
         ⟨"b", scenarioItem true 10 StackBalancingMethod.BALANCED_FILL_EXISTING_STACKS, 10⟩,
         ⟨"c", scenarioItem true 10 StackBalancingMethod.BALANCED_FILL_EXISTING_STACKS, 4⟩,
         ⟨"d", scenarioItem true 10 StackBalancingMethod.BALANCED_FILL_EXISTING_STACKS, 9⟩])
      "storage" "item" 7
      (scenarioItem true 10 StackBalancingMethod.BALANCED_FILL_EXISTING_STACKS) []
      [⟨"a", scenarioItem true 10 StackBalancingMethod.BALANCED_FILL_EXISTING_STACKS, 8⟩,
       ⟨"c", scenarioItem true 10 StackBalancingMethod.BALANCED_FILL_EXISTING_STACKS, 4⟩,
       ⟨"d", scenarioItem true 10 StackBalancingMethod.BALANCED_FILL_EXISTING_STACKS, 9⟩]
      rfl (Or.inl rfl) (by decide) (by decide) (fun _ => rfl) (by decide) (by decide)
      (by decide)).trans (by decide)

theorem fillLoop_append (writeOk : Nat → Bool) (hok : ∀ n, writeOk n = true) (cap : Int)
    (pre post : List StorageItem) (remainder : Int) (calls : List RepoCall) :
    fillLoop writeOk cap (pre ++ post) remainder calls
      = fillLoop writeOk cap post (fillLoop writeOk cap pre remainder calls).remainder
          (fillLoop writeOk cap pre remainder calls).calls := by
  induction pre generalizing remainder calls with
  | nil => simp [fillLoop]
  | cons x rest ih =>
    simp only [List.cons_append, fillLoop, hok, if_true]
    exact ih _ _

theorem fillLoop_zero (writeOk : Nat → Bool) (hok : ∀ n, writeOk n = true) (cap : Int)
    (post : List StorageItem) (hpost : ∀ x ∈ post, 0 ≤ x.Amount ∧ x.Amount ≤ cap)
    (hcap : cap < 2 ^ 63) (calls : List RepoCall) :
    fillLoop writeOk cap post 0 calls
      = ⟨0, none, calls ++ post.map fun x => RepoCall.IncreaseItemAmount x.Id 0⟩ := by
  rw [fillLoop_eq_greedy writeOk hok cap post 0 calls hpost hcap ⟨by omega, by omega⟩]
  have hdeltas : ∀ (ys : List StorageItem), (∀ y ∈ ys, 0 ≤ y.Amount ∧ y.Amount ≤ cap) →
      greedyDeltas cap (ys.map (·.Amount)) 0 = ys.map fun _ => (0 : Int) := by
    intro ys
    induction ys with
    | nil => intro _; rfl
    | cons y rest ih =>
      intro hys
      have hy := hys y (List.mem_cons_self _ _)
      have hmin : min (0 : Int) (cap - y.Amount) = 0 := min_eq_left (by omega)
      simp only [List.map_cons, greedyDeltas, hmin, sub_zero]
      rw [ih (fun z hz => hys z (List.mem_cons_of_mem _ hz))]
  rw [hdeltas post hpost]
  have hcalls : ∀ (ys : List StorageItem),
      increaseCalls ys (ys.map fun _ => (0 : Int))
        = ys.map fun x => RepoCall.IncreaseItemAmount x.Id 0 := by
    intro ys
    induction ys with
    | nil => rfl
    | cons y rest ih =>
      simp only [increaseCalls, List.map_cons, List.zipWith_cons_cons] at ih ⊢
      rw [ih]
  rw [hcalls]
  simp

/-- C10, refuted as stated. Cap 10, `BALANCED_FILL_EXISTING_STACKS`, fillable stacks `a` of 8
and `c` of 4, remainder 2: after the first stack the remainder is 0, and
`GiveToExistingStorageItems` still issues an `IncreaseItemAmount` call for the later stack
`c` (with delta 0). -/
theorem fill_call_after_zero_remainder :
    fillLoop (fun _ => true) 10
        [⟨"a", scenarioItem true 10 StackBalancingMethod.BALANCED_FILL_EXISTING_STACKS, 8⟩] 2 []
      = ⟨0, none, [RepoCall.IncreaseItemAmount "a" 2]⟩
    ∧ GiveToExistingStorageItems
        (scenarioEnv (scenarioItem true 10 StackBalancingMethod.BALANCED_FILL_EXISTING_STACKS)
          [⟨"a", scenarioItem true 10 StackBalancingMethod.BALANCED_FILL_EXISTING_STACKS, 8⟩,
           ⟨"c", scenarioItem true 10 StackBalancingMethod.BALANCED_FILL_EXISTING_STACKS, 4⟩])
        "storage" "item" 2
        (scenarioItem true 10 StackBalancingMethod.BALANCED_FILL_EXISTING_STACKS) []
      = ⟨0, none, [RepoCall.IncreaseItemAmount "a" 2, RepoCall.IncreaseItemAmount "c" 0]⟩ := by
  decide

/-- C10, amended. For a capped item (`StackMaxCount > 0`) with a fill-existing balancing
method, the loop of `GiveToExistingStorageItems` does not stop when the remainder reaches 0:
when every write succeeds it runs until the fillable stacks are exhausted.  If the remainder
is 0 after the stacks `pre`, then every later fillable stack (`post`) still receives one
`IncreaseItemAmount` call, with delta 0, and 0 is returned.  The values are those of the data
model, which keeps the `int64` subtractions of the loop from wrapping: every fillable stack
holds an amount between 0 and the cap, and the cap and the remainder are `int64` values. -/
theorem GiveToExistingStorageItems_visits_all (env : Env) (storageID itemID : String)
    (remainder : Int) (item : Item) (calls : List RepoCall) (pre post : List StorageItem)
    (hstackable : item.Stackable = true)
    (hmethod : item.StackBalancingMethod = StackBalancingMethod.BALANCED_FILL_EXISTING_STACKS ∨
      item.StackBalancingMethod = StackBalancingMethod.UNBALANCED_FILL_EXISTING_STACKS)
    (hcap : item.StackMaxCount > 0)
    (hget : GetExistingStorageItems env storageID itemID = .ok (pre ++ post))
    (hok : ∀ n, env.writeOk n = true)
    (hzero : remainder
      - (greedyDeltas item.StackMaxCount (pre.map (·.Amount)) remainder).sum = 0)
    (hamounts : ∀ x ∈ pre ++ post, 0 ≤ x.Amount ∧ x.Amount ≤ item.StackMaxCount)
    (hcapmax : item.StackMaxCount < 2 ^ 63)
    (hrem : -(2 ^ 63) ≤ remainder ∧ remainder < 2 ^ 63) :
    GiveToExistingStorageItems env storageID itemID remainder item calls
      = ⟨0, none,
          (calls ++ increaseCalls pre
            (greedyDeltas item.StackMaxCount (pre.map (·.Amount)) remainder))
          ++ post.map fun x => RepoCall.IncreaseItemAmount x.Id 0⟩ := by
  rw [GiveToExistingStorageItems_capped env storageID itemID remainder item calls (pre ++ post)
    hstackable hmethod hcap hget]
  rw [fillLoop_append env.writeOk hok,
    fillLoop_eq_greedy env.writeOk hok item.StackMaxCount pre remainder calls
      (fun x hx => hamounts x (List.mem_append_left _ hx)) hcapmax hrem]
  show fillLoop env.writeOk item.StackMaxCount post
      (remainder - (greedyDeltas item.StackMaxCount (pre.map (·.Amount)) remainder).sum) _ = _
  rw [hzero]
  exact fillLoop_zero env.writeOk hok item.StackMaxCount post
    (fun x hx => hamounts x (List.mem_append_right _ hx)) hcapmax _

/-- Witness of the amended C10: cap 10, fillable stacks `a` of 8 and `c` of 4, remainder 2,
with `pre = [a]` and `post = [c]`. -/
theorem GiveToExistingStorageItems_visits_all_witness :
    GiveToExistingStorageItems
        (scenarioEnv (scenarioItem true 10 StackBalancingMethod.BALANCED_FILL_EXISTING_STACKS)
          [⟨"a", scenarioItem true 10 StackBalancingMethod.BALANCED_FILL_EXISTING_STACKS, 8⟩,
           ⟨"c", scenarioItem true 10 StackBalancingMethod.BALANCED_FILL_EXISTING_STACKS, 4⟩])
        "storage" "item" 2
        (scenarioItem true 10 StackBalancingMethod.BALANCED_FILL_EXISTING_STACKS) []
      = ⟨0, none, [RepoCall.IncreaseItemAmount "a" 2, RepoCall.IncreaseItemAmount "c" 0]⟩ :=
  (GiveToExistingStorageItems_visits_all
      (scenarioEnv (scenarioItem true 10 StackBalancingMethod.BALANCED_FILL_EXISTING_STACKS)
        [⟨"a", scenarioItem true 10 StackBalancingMethod.BALANCED_FILL_EXISTING_STACKS, 8⟩,
         ⟨"c", scenarioItem true 10 StackBalancingMethod.BALANCED_FILL_EXISTING_STACKS, 4⟩])
      "storage" "item" 2
      (scenarioItem true 10 StackBalancingMethod.BALANCED_FILL_EXISTING_STACKS) []
      [⟨"a", scenarioItem true 10 StackBalancingMethod.BALANCED_FILL_EXISTING_STACKS, 8⟩]
      [⟨"c", scenarioItem true 10 StackBalancingMethod.BALANCED_FILL_EXISTING_STACKS, 4⟩]
      rfl (Or.inl rfl) (by decide) (by decide) (fun _ => rfl) (by decide)
      (by decide) (by decide) (by decide)).trans (by decide)

/-! ## GiveItem -/

theorem unstackableLoop_ok (writeOk : Nat → Bool) (hok : ∀ n, writeOk n = true)
    (storageId itemId : String) (loops : Nat) (remainder : Int) (calls : List RepoCall) :
    unstackableLoop writeOk storageId itemId loops remainder calls
      = ⟨remainder - loops, none,
          calls ++ List.replicate loops (RepoCall.GiveItem storageId itemId 1)⟩ := by
  induction loops generalizing remainder calls with
  | zero => simp [unstackableLoop]
  | succ n ih =>
    simp only [unstackableLoop, hok, if_true, ih, List.replicate_succ, List.append_assoc,
      List.singleton_append, Nat.cast_succ]
    congr 1
    ring

theorem createLoop_ok (writeOk : Nat → Bool) (hok : ∀ n, writeOk n = true)
    (storageId itemId : String) (amounts : List Int) (remainder : Int)
    (calls : List RepoCall) :
    createLoop writeOk storageId itemId amounts remainder calls
      = ⟨remainder - amounts.sum, none,
          calls ++ amounts.map (RepoCall.GiveItem storageId itemId)⟩ := by
  induction amounts generalizing remainder calls with
  | nil => simp [createLoop]
  | cons a rest ih =>
    simp only [createLoop, hok, if_true, ih, List.sum_cons, List.map_cons, List.append_assoc,
      List.singleton_append]
    congr 1
    ring

/-- C5. Unstackable integrity: for every unstackable item, whatever its balancing method and
cap, and every sampled amount `N ≥ 0`, when the api check, the item lookup and every write
succeed, `GiveItem` succeeds with amount `N` and its writes are exactly `N` creations of a
stack of amount 1; no `IncreaseItemAmount` call is issued. -/
theorem GiveItem_unstackable (env : Env) (req : GiveItemRequest) (item : Item)
    (hapi : env.checkAPI req.Api = true)
    (hitem : env.itemGet req.ItemId = some item)
    (hunstackable : item.Stackable = false)
    (hamount : 0 ≤ env.GenerateRandomInt req.MinAmount req.MaxAmount)
    (hok : ∀ n, env.writeOk n = true) :
    GiveItem env req
      = ⟨.ok ⟨req.StorageId, env.GenerateRandomInt req.MinAmount req.MaxAmount⟩,
          List.replicate (env.GenerateRandomInt req.MinAmount req.MaxAmount).toNat
            (RepoCall.GiveItem req.StorageId req.ItemId 1)⟩ := by
  have hsteps : ∀ N : Int, 0 ≤ N → giveItemSteps env req item N
      = ⟨0, none, List.replicate N.toNat (RepoCall.GiveItem req.StorageId req.ItemId 1)⟩ := by
    intro N hN
    unfold giveItemSteps
    rw [GiveToExistingStorageItems_of_gate env req.StorageId req.ItemId N item []
      (Or.inl hunstackable)]
    by_cases hpos : N > 0
    · simp only [hunstackable, hpos, and_self, if_true, unstackableLoop_ok env.writeOk hok,
        Bool.false_eq_true, false_and, if_false, List.nil_append]
      congr 1
      omega
    · have h0 : N = 0 := by omega
      subst h0
      simp [hunstackable]
  unfold GiveItem
  simp [hapi, hitem, hsteps _ hamount]

/-- Witness of C5 (scenario E): an unstackable item, grant 3: three new stacks of amount 1. -/
theorem GiveItem_unstackable_witness :
    GiveItem (scenarioEnv (scenarioItem false 0 StackBalancingMethod.DEFAULT) [])
        (scenarioReq 3)
      = ⟨.ok ⟨"storage", 3⟩,
          [RepoCall.GiveItem "storage" "item" 1, RepoCall.GiveItem "storage" "item" 1,
           RepoCall.GiveItem "storage" "item" 1]⟩ :=
  GiveItem_unstackable (scenarioEnv (scenarioItem false 0 StackBalancingMethod.DEFAULT) [])
    (scenarioReq 3) (scenarioItem false 0 StackBalancingMethod.DEFAULT) rfl rfl rfl
    (by decide) (fun _ => rfl)

/-- C6. Uncapped fill: for a stackable item with a fill-existing balancing method and
`StackMaxCount = 0`, when the finder returns at least one fillable stack and the writes
succeed, `GiveToExistingStorageItems` issues a single write, the increase of the first
fillable stack by the entire remainder, and returns remainder 0; `GiveItem` then succeeds
with that increase as its only write, so no new stack is created. -/
theorem GiveToExistingStorageItems_uncapped (env : Env) (req : GiveItemRequest) (item : Item)
    (first : StorageItem) (others : List StorageItem)
    (hstackable : item.Stackable = true)
    (hmethod : item.StackBalancingMethod = StackBalancingMethod.BALANCED_FILL_EXISTING_STACKS ∨
      item.StackBalancingMethod = StackBalancingMethod.UNBALANCED_FILL_EXISTING_STACKS)
    (hcap : item.StackMaxCount = 0)
    (hget : GetExistingStorageItems env req.StorageId req.ItemId = .ok (first :: others))
    (hok : ∀ n, env.writeOk n = true) :
    (∀ (remainder : Int) (calls : List RepoCall),
      GiveToExistingStorageItems env req.StorageId req.ItemId remainder item calls
        = ⟨0, none, calls ++ [RepoCall.IncreaseItemAmount first.Id remainder]⟩)
    ∧ (env.checkAPI req.Api = true → env.itemGet req.ItemId = some item →
        GiveItem env req
          = ⟨.ok ⟨req.StorageId, env.GenerateRandomInt req.MinAmount req.MaxAmount⟩,
              [RepoCall.IncreaseItemAmount first.Id
                (env.GenerateRandomInt req.MinAmount req.MaxAmount)]⟩) := by
  have hm : ¬ (item.StackBalancingMethod ≠ StackBalancingMethod.BALANCED_FILL_EXISTING_STACKS ∧
      item.StackBalancingMethod ≠ StackBalancingMethod.UNBALANCED_FILL_EXISTING_STACKS) := by
    rcases hmethod with h | h <;> simp [h]
  have hfill : ∀ (remainder : Int) (calls : List RepoCall),
      GiveToExistingStorageItems env req.StorageId req.ItemId remainder item calls
        = ⟨0, none, calls ++ [RepoCall.IncreaseItemAmount first.Id remainder]⟩ := by
    intro remainder calls
    unfold GiveToExistingStorageItems
    rw [hget]
    simp [hstackable, hm, hcap, hok]
  refine ⟨hfill, ?_⟩
  intro hapi hitem
  unfold GiveItem giveItemSteps
  simp [hapi, hitem, hfill, hstackable]

/-- Witness of C6 (scenario A): uncapped stackable item, one existing stack of 5, grant 10:
the only write increases that stack by 10 (so it holds 15), and no stack is created. -/
theorem GiveToExistingStorageItems_uncapped_witness :
    GiveItem
        (scenarioEnv (scenarioItem true 0 StackBalancingMethod.BALANCED_FILL_EXISTING_STACKS)
          [⟨"a", scenarioItem true 0 StackBalancingMethod.BALANCED_FILL_EXISTING_STACKS, 5⟩])
        (scenarioReq 10)
      = ⟨.ok ⟨"storage", 10⟩, [RepoCall.IncreaseItemAmount "a" 10]⟩
    ∧ applyCalls (scenarioItem true 0 StackBalancingMethod.BALANCED_FILL_EXISTING_STACKS)
        (fun _ => "new") [RepoCall.IncreaseItemAmount "a" 10]
        [⟨"a", scenarioItem true 0 StackBalancingMethod.BALANCED_FILL_EXISTING_STACKS, 5⟩]
      = [⟨"a", scenarioItem true 0 StackBalancingMethod.BALANCED_FILL_EXISTING_STACKS, 15⟩] :=
  ⟨(GiveToExistingStorageItems_uncapped
      (scenarioEnv (scenarioItem true 0 StackBalancingMethod.BALANCED_FILL_EXISTING_STACKS)
        [⟨"a", scenarioItem true 0 StackBalancingMethod.BALANCED_FILL_EXISTING_STACKS, 5⟩])
      (scenarioReq 10)
      (scenarioItem true 0 StackBalancingMethod.BALANCED_FILL_EXISTING_STACKS)
      ⟨"a", scenarioItem true 0 StackBalancingMethod.BALANCED_FILL_EXISTING_STACKS, 5⟩ []
      rfl (Or.inl rfl) rfl (by decide) (fun _ => rfl)).2 rfl rfl,
    by decide⟩

/-- C9, refuted as stated. (1) A sampled amount of -1 for an unstackable item: nothing is
allocated, the remainder that reaches the final check is -1, not 0, and `GiveItem` returns a
success response.  (2) With a sampled amount `≥ 0`: amount `2 ^ 54 - 1`, stackable item of cap
`2 ^ 53`, empty storage: the remainder that reaches the final check is `-(2 ^ 53)`, and
`GiveItem` returns a success response. -/
theorem GiveItem_succeeds_with_negative_remainder :
    ((giveItemSteps (scenarioEnv (scenarioItem false 0 StackBalancingMethod.DEFAULT) [])
          (scenarioReq (-1)) (scenarioItem false 0 StackBalancingMethod.DEFAULT) (-1)).remainder
        = -1
      ∧ GiveItem (scenarioEnv (scenarioItem false 0 StackBalancingMethod.DEFAULT) [])
          (scenarioReq (-1))
        = ⟨.ok ⟨"storage", -1⟩, []⟩)
    ∧ ((giveItemSteps (scenarioEnv (scenarioItem true (2 ^ 53) StackBalancingMethod.DEFAULT) [])
          (scenarioReq (2 ^ 54 - 1)) (scenarioItem true (2 ^ 53) StackBalancingMethod.DEFAULT)
          (2 ^ 54 - 1)).remainder = -(2 ^ 53)
      ∧ (GiveItem (scenarioEnv (scenarioItem true (2 ^ 53) StackBalancingMethod.DEFAULT) [])
          (scenarioReq (2 ^ 54 - 1))).response = .ok ⟨"storage", 2 ^ 54 - 1⟩) := by
  decide

/-- C9, amended. When the api check and the item lookup succeed and no allocation step
fails, `GiveItem` fails with the error "something went wrong" exactly when the remainder
left after the fill, unstackable and new-stack steps is greater than 0; when that remainder
is 0 or negative it returns a success response carrying the sampled amount. -/
theorem GiveItem_final_check (env : Env) (req : GiveItemRequest) (item : Item)
    (hapi : env.checkAPI req.Api = true)
    (hitem : env.itemGet req.ItemId = some item)
    (hsteps : (giveItemSteps env req item
      (env.GenerateRandomInt req.MinAmount req.MaxAmount)).err = none) :
    ((giveItemSteps env req item
          (env.GenerateRandomInt req.MinAmount req.MaxAmount)).remainder > 0 →
        (GiveItem env req).response = .error "something went wrong")
    ∧ ((giveItemSteps env req item
          (env.GenerateRandomInt req.MinAmount req.MaxAmount)).remainder ≤ 0 →
        (GiveItem env req).response
          = .ok ⟨req.StorageId, env.GenerateRandomInt req.MinAmount req.MaxAmount⟩) := by
  unfold GiveItem
  simp only [hapi, hitem, Bool.not_true, Bool.false_eq_true, if_false, hsteps]
  constructor
  · intro h
    simp [h]
  · intro h
    simp [not_lt.mpr h]

/-- Witness of the amended C9: a stackable item with a negative cap and grant 5: nothing
can be allocated, the remainder 5 reaches the final check and `GiveItem` fails. -/
theorem GiveItem_final_check_witness :
    (GiveItem (scenarioEnv (scenarioItem true (-1) StackBalancingMethod.DEFAULT) [])
        (scenarioReq 5)).response = .error "something went wrong" :=
  (GiveItem_final_check (scenarioEnv (scenarioItem true (-1) StackBalancingMethod.DEFAULT) [])
    (scenarioReq 5) (scenarioItem true (-1) StackBalancingMethod.DEFAULT) rfl rfl
    (by decide)).1 (by decide)

/-! ## Capacity -/

theorem applyCalls_append (item : Item) (freshId : Nat → String) (cs ds : List RepoCall)
    (items : List StorageItem) :
    applyCalls item freshId (cs ++ ds) items
      = applyCalls item freshId ds (applyCalls item freshId cs items) := by
  induction cs generalizing items with
  | nil => rfl
  | cons c rest ih =>
    cases c with
    | IncreaseItemAmount id d =>
      simp only [List.cons_append, applyCalls]
      exact ih _
    | GiveItem sid iid a =>
      simp only [List.cons_append, applyCalls]
      exact ih _

/-- Creations of stacks no larger than the cap keep every stack of the item under the cap. -/
theorem applyCalls_creations_le (item : Item) (freshId : Nat → String) (itemID : String)
    (cap : Int) (cs : List RepoCall)
    (hcs : ∀ c ∈ cs, ∃ sid iid a, c = RepoCall.GiveItem sid iid a ∧ a ≤ cap)
    (items : List StorageItem)
    (hitems : ∀ si ∈ items, si.Item.Id = itemID → si.Amount ≤ cap) :
    ∀ si ∈ applyCalls item freshId cs items, si.Item.Id = itemID → si.Amount ≤ cap := by
  induction cs generalizing items with
  | nil => exact hitems
  | cons c rest ih =>
    obtain ⟨sid, iid, a, hc, ha⟩ := hcs c (List.mem_cons_self _ _)
    subst hc
    simp only [applyCalls]
    apply ih (fun c hc => hcs c (List.mem_cons_of_mem _ hc))
    intro si hsi hid
    simp only [createStack, List.mem_append, List.mem_singleton] at hsi
    rcases hsi with hsi | hsi
    · exact hitems si hsi hid
    · subst hsi
      exact ha

/-- The capped loop, whatever writes fail: it only issues increases, and they keep every stack
of the item under the cap, provided the stacks it visits have distinct ids, hold no more
than the cap, and still hold in the storage the amount of the snapshot. -/
theorem fillLoop_capacity (writeOk : Nat → Bool) (item : Item) (freshId : Nat → String)
    (itemID : String) (cap : Int) (xs : List StorageItem) (remainder : Int)
    (calls : List RepoCall) (items : List StorageItem)
    (hids : (xs.map (·.Id)).Nodup)
    (hxs : ∀ x ∈ xs, x.Amount ≤ cap)
    (hsnap : ∀ x ∈ xs, ∀ si ∈ items, si.Id = x.Id → si.Amount = x.Amount)
    (hitems : ∀ si ∈ items, si.Item.Id = itemID → si.Amount ≤ cap) :
    ∃ extra, (fillLoop writeOk cap xs remainder calls).calls = calls ++ extra
      ∧ createdAmounts extra = []
      ∧ ∀ si ∈ applyCalls item freshId extra items, si.Item.Id = itemID → si.Amount ≤ cap := by
  induction xs generalizing remainder calls items with
  | nil => exact ⟨[], by simp [fillLoop], rfl, hitems⟩
  | cons x rest ih =>
    simp only [fillLoop]
    by_cases hw : writeOk calls.length = true
    · simp only [hw, if_true]
      have hnod : x.Id ∉ rest.map (·.Id) ∧ (rest.map (·.Id)).Nodup :=
        List.nodup_cons.mp (by simpa only [List.map_cons] using hids)
      have hx : x.Amount ≤ cap := hxs x (List.mem_cons_self _ _)
      have hroom : wrapInt64 (cap - x.Amount) ≤ cap - x.Amount :=
        wrapInt64_le _ (by omega)
      have hd : (if remainder ≥ wrapInt64 (cap - x.Amount) then wrapInt64 (cap - x.Amount)
          else remainder) ≤ cap - x.Amount := by
        by_cases h : remainder ≥ wrapInt64 (cap - x.Amount)
        · rw [if_pos h]; exact hroom
        · rw [if_neg h]; omega
      generalize (if remainder ≥ wrapInt64 (cap - x.Amount) then wrapInt64 (cap - x.Amount)
        else remainder) = d at hd ⊢
      obtain ⟨extra, hcalls, hcreated, hcap⟩ := ih (wrapInt64 (remainder - d))
        (calls ++ [RepoCall.IncreaseItemAmount x.Id d]) (increaseItemAmount x.Id d items)
        hnod.2
        (fun y hy => hxs y (List.mem_cons_of_mem _ hy))
        (by
          intro y hy si hsi hid
          simp only [increaseItemAmount, List.mem_map] at hsi
          obtain ⟨si0, hsi0, rfl⟩ := hsi
          have hne : y.Id ≠ x.Id := by
            intro heq
            exact hnod.1 (List.mem_map.mpr ⟨y, hy, heq⟩)
          by_cases h : si0.Id = x.Id
          · rw [if_pos h] at hid
            exact absurd (hid.symm.trans h) hne
          · rw [if_neg h] at hid ⊢
            exact hsnap y (List.mem_cons_of_mem _ hy) si0 hsi0 hid)
        (by
          intro si hsi hid
          simp only [increaseItemAmount, List.mem_map] at hsi
          obtain ⟨si0, hsi0, rfl⟩ := hsi
          by_cases h : si0.Id = x.Id
          · rw [if_pos h] at hid ⊢
            have := hsnap x (List.mem_cons_self _ _) si0 hsi0 h
            show si0.Amount + d ≤ cap
            omega
          · rw [if_neg h] at hid ⊢
            exact hitems si0 hsi0 hid)
      refine ⟨RepoCall.IncreaseItemAmount x.Id d :: extra, ?_, ?_, ?_⟩
      · rw [hcalls]; simp
      · simpa [createdAmounts] using hcreated
      · simpa [applyCalls] using hcap
    · simp only [hw]
      exact ⟨[], by simp, rfl, hitems⟩

/-- The loop for an unstackable item, whatever writes fail: it only creates stacks of 1. -/
theorem unstackableLoop_calls (writeOk : Nat → Bool) (storageId itemId : String) (loops : Nat)
    (remainder : Int) (calls : List RepoCall) :
    ∃ extra, (unstackableLoop writeOk storageId itemId loops remainder calls).calls
        = calls ++ extra
      ∧ ∀ c ∈ extra, c = RepoCall.GiveItem storageId itemId 1 := by
  induction loops generalizing remainder calls with
  | zero => exact ⟨[], by simp [unstackableLoop], by simp⟩
  | succ n ih =>
    simp only [unstackableLoop]
    by_cases hw : writeOk calls.length = true
    · simp only [hw, if_true]
      obtain ⟨extra, hcalls, hextra⟩ := ih (remainder - 1)
        (calls ++ [RepoCall.GiveItem storageId itemId 1])
      refine ⟨RepoCall.GiveItem storageId itemId 1 :: extra, by rw [hcalls]; simp, ?_⟩
      intro c hc
      rcases List.mem_cons.mp hc with h | h
      · exact h
      · exact hextra c h
    · simp only [hw]
      exact ⟨[], by simp, by simp⟩

/-- The new-stack loop, whatever writes fail: it only creates stacks with amounts taken from
`resultAmounts`. -/
theorem createLoop_calls (writeOk : Nat → Bool) (storageId itemId : String)
    (amounts : List Int) (remainder : Int) (calls : List RepoCall) :
    ∃ extra, (createLoop writeOk storageId itemId amounts remainder calls).calls
        = calls ++ extra
      ∧ ∀ c ∈ extra, ∃ a ∈ amounts, c = RepoCall.GiveItem storageId itemId a := by
  induction amounts generalizing remainder calls with
  | nil => exact ⟨[], by simp [createLoop], by simp⟩
  | cons a rest ih =>
    simp only [createLoop]
    by_cases hw : writeOk calls.length = true
    · simp only [hw, if_true]
      obtain ⟨extra, hcalls, hextra⟩ := ih (remainder - a)
        (calls ++ [RepoCall.GiveItem storageId itemId a])
      refine ⟨RepoCall.GiveItem storageId itemId a :: extra, by rw [hcalls]; simp, ?_⟩
      intro c hc
      rcases List.mem_cons.mp hc with h | h
      · exact ⟨a, List.mem_cons_self _ _, h⟩
      · obtain ⟨b, hb, hcb⟩ := hextra c h
        exact ⟨b, List.mem_cons_of_mem _ hb, hcb⟩
    · simp only [hw]
      exact ⟨[], by simp, by simp⟩

/-- Under a positive cap no planned new stack exceeds the cap. -/
theorem resultAmounts_le (item : Item) (remainder : Int) (hcap : item.StackMaxCount > 0) :
    ∀ a ∈ resultAmounts item remainder, a ≤ item.StackMaxCount := by
  intro a ha
  have hne : item.StackMaxCount ≠ 0 := ne_of_gt hcap
  simp only [resultAmounts, hne, if_false, hcap, if_true, List.nil_append, List.mem_append,
    List.mem_replicate, List.mem_singleton] at ha
  rcases ha with ⟨_, h⟩ | h
  · exact le_of_eq h
  · rw [h]
    exact le_of_lt (Int.tmod_lt_of_pos remainder hcap)

/-- The fill step under a positive cap, whatever writes fail: it only issues increases, and
they keep every stack of the item under the cap. -/
theorem GiveToExistingStorageItems_capacity (env : Env) (storageID itemID : String)
    (remainder : Int) (item : Item) (freshId : Nat → String) (storage : Storage)
    (hstorage : env.storageGet storageID = some storage)
    (hcap : item.StackMaxCount > 0)
    (hids : (storage.Items.map (·.Id)).Nodup)
    (hbefore : ∀ si ∈ storage.Items, si.Item.Id = itemID → si.Amount ≤ item.StackMaxCount) :
    createdAmounts (GiveToExistingStorageItems env storageID itemID remainder item []).calls = []
      ∧ ∀ si ∈ applyCalls item freshId
          (GiveToExistingStorageItems env storageID itemID remainder item []).calls
          storage.Items,
        si.Item.Id = itemID → si.Amount ≤ item.StackMaxCount := by
  have hne : item.StackMaxCount ≠ 0 := ne_of_gt hcap
  have hget : GetExistingStorageItems env storageID itemID
      = .ok (storage.Items.filter (isFillable itemID)) := by
    simp [GetExistingStorageItems, hstorage, existingLoop_eq_filter]
  have hloop : ∀ xs, xs = storage.Items.filter (isFillable itemID) →
      createdAmounts (fillLoop env.writeOk item.StackMaxCount xs remainder []).calls = []
      ∧ ∀ si ∈ applyCalls item freshId
          (fillLoop env.writeOk item.StackMaxCount xs remainder []).calls storage.Items,
        si.Item.Id = itemID → si.Amount ≤ item.StackMaxCount := by
    intro xs hxs
    have hmem : ∀ x ∈ xs, x ∈ storage.Items ∧ x.Item.Id = itemID := by
      intro x hx
      rw [hxs, List.mem_filter] at hx
      refine ⟨hx.1, ?_⟩
      have := hx.2
      simp only [isFillable, Bool.and_eq_true, decide_eq_true_eq] at this
      exact this.1
    obtain ⟨extra, hcalls, hcreated, hle⟩ := fillLoop_capacity env.writeOk item freshId itemID
      item.StackMaxCount xs remainder [] storage.Items
      (List.Nodup.sublist (List.Sublist.map _ (hxs ▸ List.filter_sublist _)) hids)
      (fun x hx => hbefore x (hmem x hx).1 (hmem x hx).2)
      (fun x hx si hsi hid => by
        rw [List.inj_on_of_nodup_map hids hsi (hmem x hx).1 hid])
      hbefore
    rw [hcalls]
    exact ⟨by simpa using hcreated, by simpa using hle⟩
  unfold GiveToExistingStorageItems
  rw [hget]
  by_cases hs : item.Stackable = true
  · have hs' : (!item.Stackable) = false := by simp [hs]
    rw [hs', if_neg (by decide)]
    by_cases hm : item.StackBalancingMethod ≠ StackBalancingMethod.BALANCED_FILL_EXISTING_STACKS ∧
        item.StackBalancingMethod ≠ StackBalancingMethod.UNBALANCED_FILL_EXISTING_STACKS
    · rw [if_pos hm]
      exact ⟨rfl, hbefore⟩
    · rw [if_neg hm]
      cases hxs : storage.Items.filter (isFillable itemID) with
      | nil => exact ⟨rfl, hbefore⟩
      | cons x rest =>
        simp only [if_neg hne, if_pos hcap]
        exact hloop (x :: rest) hxs.symm
  · have hs' : (!item.Stackable) = true := by simpa using hs
    rw [hs', if_pos rfl]
    exact ⟨rfl, hbefore⟩

/-- The writes of the allocation steps under a positive cap: those of the fill step, then
creations of stacks no larger than the cap. -/
theorem giveItemSteps_calls (env : Env) (req : GiveItemRequest) (item : Item)
    (remainder : Int) (hcap : item.StackMaxCount > 0) :
    ∃ creates, (giveItemSteps env req item remainder).calls
        = (GiveToExistingStorageItems env req.StorageId req.ItemId remainder item []).calls
          ++ creates
      ∧ ∀ c ∈ creates, ∃ sid iid a, c = RepoCall.GiveItem sid iid a ∧
          a ≤ item.StackMaxCount := by
  unfold giveItemSteps
  generalize GiveToExistingStorageItems env req.StorageId req.ItemId remainder item [] = filled
  dsimp only
  cases hferr : filled.err with
  | some e => exact ⟨[], by simp, by simp⟩
  | none =>
    dsimp only
    by_cases hu : item.Stackable = false ∧ filled.remainder > 0
    · rw [if_pos hu]
      have hst : ¬ (item.Stackable = true ∧
          (unstackableLoop env.writeOk req.StorageId req.ItemId filled.remainder.toNat
            filled.remainder filled.calls).remainder > 0) := by
        rw [hu.1]
        simp
      rw [if_neg hst]
      obtain ⟨extra, hcalls, hextra⟩ := unstackableLoop_calls env.writeOk req.StorageId
        req.ItemId filled.remainder.toNat filled.remainder filled.calls
      refine ⟨extra, ?_, ?_⟩
      · rw [← hcalls]
        cases (unstackableLoop env.writeOk req.StorageId req.ItemId filled.remainder.toNat
          filled.remainder filled.calls).err <;> rfl
      · intro c hc
        exact ⟨_, _, 1, hextra c hc, by omega⟩
    · rw [if_neg hu]
      dsimp only
      by_cases hst : item.Stackable = true ∧ filled.remainder > 0
      · rw [if_pos hst]
        obtain ⟨extra, hcalls, hextra⟩ := createLoop_calls env.writeOk req.StorageId
          req.ItemId (resultAmounts item filled.remainder) filled.remainder filled.calls
        refine ⟨extra, hcalls, ?_⟩
        intro c hc
        obtain ⟨a, ha, hca⟩ := hextra c hc
        exact ⟨_, _, a, hca, resultAmounts_le item filled.remainder hcap a ha⟩
      · rw [if_neg hst]
        exact ⟨[], by simp, by simp⟩

/-- C2. Capacity: for every item with `StackMaxCount > 0` and every storage (with distinct
stack ids) in which every stack of that item holds at most `StackMaxCount`, after `GiveItem`,
for every sampled amount and whichever writes fail, every stack of that item in the storage
(increased or newly created) still holds at most `StackMaxCount`, and every stack that was
created has an amount of at most `StackMaxCount`. -/
theorem GiveItem_capacity (env : Env) (req : GiveItemRequest) (item : Item) (storage : Storage)
    (freshId : Nat → String)
    (hitem : env.itemGet req.ItemId = some item)
    (hstorage : env.storageGet req.StorageId = some storage)
    (hcap : item.StackMaxCount > 0)
    (hids : (storage.Items.map (·.Id)).Nodup)
    (hbefore : ∀ si ∈ storage.Items, si.Item.Id = req.ItemId →
      si.Amount ≤ item.StackMaxCount) :
    (∀ si ∈ applyCalls item freshId (GiveItem env req).calls storage.Items,
        si.Item.Id = req.ItemId → si.Amount ≤ item.StackMaxCount)
      ∧ ∀ a ∈ createdAmounts (GiveItem env req).calls, a ≤ item.StackMaxCount := by
  have hcalls : (GiveItem env req).calls = []
      ∨ (GiveItem env req).calls = (giveItemSteps env req item
          (env.GenerateRandomInt req.MinAmount req.MaxAmount)).calls := by
    unfold GiveItem
    by_cases hapi : env.checkAPI req.Api = true
    · right
      simp only [hapi, Bool.not_true, Bool.false_eq_true, if_false, hitem]
      cases (giveItemSteps env req item
        (env.GenerateRandomInt req.MinAmount req.MaxAmount)).err with
      | some e => rfl
      | none =>
        simp only []
        split <;> rfl
    · left
      simp [hapi]
  rcases hcalls with h | h
  · rw [h]
    exact ⟨hbefore, by simp [createdAmounts]⟩
  · rw [h]
    obtain ⟨creates, hsteps, hcreates⟩ := giveItemSteps_calls env req item
      (env.GenerateRandomInt req.MinAmount req.MaxAmount) hcap
    obtain ⟨hnone, hfill⟩ := GiveToExistingStorageItems_capacity env req.StorageId req.ItemId
      (env.GenerateRandomInt req.MinAmount req.MaxAmount) item freshId storage hstorage hcap
      hids hbefore
    rw [hsteps]
    constructor
    · rw [applyCalls_append]
      exact applyCalls_creations_le item freshId req.ItemId item.StackMaxCount creates hcreates
        _ hfill
    · intro a ha
      simp only [createdAmounts, List.filterMap_append, List.mem_append] at ha
      rcases ha with ha | ha
      · have : a ∈ createdAmounts (GiveToExistingStorageItems env req.StorageId req.ItemId
            (env.GenerateRandomInt req.MinAmount req.MaxAmount) item []).calls := ha
        rw [hnone] at this
        exact absurd this (List.not_mem_nil _)
      · rw [List.mem_filterMap] at ha
        obtain ⟨c, hc, hca⟩ := ha
        obtain ⟨sid, iid, b, hcb, hb⟩ := hcreates c hc
        subst hcb
        simp only [Option.some.injEq] at hca
        omega

/-- Witness of C2 (scenario B in the storage): cap 10, `BALANCED_FILL_EXISTING_STACKS`, one
existing stack of 8, grant 5: afterwards the storage holds a stack of 10 and a new stack of
3. -/
theorem GiveItem_capacity_witness :
    applyCalls (scenarioItem true 10 StackBalancingMethod.BALANCED_FILL_EXISTING_STACKS)
        (fun _ => "new")
        (GiveItem
          (scenarioEnv (scenarioItem true 10 StackBalancingMethod.BALANCED_FILL_EXISTING_STACKS)
            [⟨"a", scenarioItem true 10 StackBalancingMethod.BALANCED_FILL_EXISTING_STACKS, 8⟩])
          (scenarioReq 5)).calls
        [⟨"a", scenarioItem true 10 StackBalancingMethod.BALANCED_FILL_EXISTING_STACKS, 8⟩]
      = [⟨"a", scenarioItem true 10 StackBalancingMethod.BALANCED_FILL_EXISTING_STACKS, 10⟩,
         ⟨"new", scenarioItem true 10 StackBalancingMethod.BALANCED_FILL_EXISTING_STACKS, 3⟩]
    ∧ ∀ a ∈ createdAmounts (GiveItem
          (scenarioEnv (scenarioItem true 10 StackBalancingMethod.BALANCED_FILL_EXISTING_STACKS)
            [⟨"a", scenarioItem true 10 StackBalancingMethod.BALANCED_FILL_EXISTING_STACKS, 8⟩])
          (scenarioReq 5)).calls, a ≤ 10 :=
  ⟨by decide,
    (GiveItem_capacity
      (scenarioEnv (scenarioItem true 10 StackBalancingMethod.BALANCED_FILL_EXISTING_STACKS)
        [⟨"a", scenarioItem true 10 StackBalancingMethod.BALANCED_FILL_EXISTING_STACKS, 8⟩])
      (scenarioReq 5)
      (scenarioItem true 10 StackBalancingMethod.BALANCED_FILL_EXISTING_STACKS)
      ⟨[⟨"a", scenarioItem true 10 StackBalancingMethod.BALANCED_FILL_EXISTING_STACKS, 8⟩]⟩
      (fun _ => "new") rfl rfl (by decide) (by decide) (by decide)).2⟩

/-! ## Conservation -/

/-- The four ways in which `GiveToExistingStorageItems` returns: nothing done, an error
before any further write, the single increase of the uncapped case, or the capped loop. -/
theorem GiveToExistingStorageItems_cases (env : Env) (storageID itemID : String)
    (remainder : Int) (item : Item) (calls : List RepoCall) :
    GiveToExistingStorageItems env storageID itemID remainder item calls
        = ⟨remainder, none, calls⟩
      ∨ (∃ e, GiveToExistingStorageItems env storageID itemID remainder item calls
          = ⟨remainder, some e, calls⟩)
      ∨ (∃ x, GiveToExistingStorageItems env storageID itemID remainder item calls
          = ⟨0, none, calls ++ [RepoCall.IncreaseItemAmount x remainder]⟩)
      ∨ (∃ xs, GetExistingStorageItems env storageID itemID = .ok xs
          ∧ item.StackMaxCount > 0
          ∧ GiveToExistingStorageItems env storageID itemID remainder item calls
            = fillLoop env.writeOk item.StackMaxCount xs remainder calls) := by
  unfold GiveToExistingStorageItems
  by_cases hs : (!item.Stackable) = true
  · left; rw [if_pos hs]
  · rw [if_neg hs]
    by_cases hm : item.StackBalancingMethod ≠ StackBalancingMethod.BALANCED_FILL_EXISTING_STACKS ∧
        item.StackBalancingMethod ≠ StackBalancingMethod.UNBALANCED_FILL_EXISTING_STACKS
    · left; rw [if_pos hm]
    · rw [if_neg hm]
      cases hget : GetExistingStorageItems env storageID itemID with
      | error e => right; left; exact ⟨e, rfl⟩
      | ok xs =>
        cases xs with
        | nil => left; rfl
        | cons x others =>
          dsimp only
          by_cases h0 : item.StackMaxCount = 0
          · have hn : ¬ item.StackMaxCount > 0 := by omega
            by_cases hw : env.writeOk calls.length = true
            · right; right; left
              exact ⟨x.Id, by simp [h0, hw]⟩
            · right; left
              exact ⟨"IncreaseItemAmount failed", by simp [h0, hw]⟩
          · by_cases hp : item.StackMaxCount > 0
            · right; right; right
              exact ⟨x :: others, rfl, hp, by simp [h0, hp]⟩
            · left
              simp [h0, hp]

/-- What a list of writes has placed: the deltas of the increases plus the amounts of the
created stacks. -/
theorem placed_append (cs ds : List RepoCall) :
    (increaseDeltas (cs ++ ds)).sum + (createdAmounts (cs ++ ds)).sum
      = ((increaseDeltas cs).sum + (createdAmounts cs).sum)
        + ((increaseDeltas ds).sum + (createdAmounts ds).sum) := by
  simp only [increaseDeltas, createdAmounts, List.filterMap_append, List.sum_append]
  ring

/-- The capped loop on values of the data model, whatever writes fail: the remainder plus what
the writes have placed does not change, and the remainder stays between 0 and its starting
value. -/
theorem fillLoop_account (writeOk : Nat → Bool) (cap : Int) (xs : List StorageItem)
    (remainder : Int) (calls : List RepoCall)
    (hxs : ∀ x ∈ xs, 0 ≤ x.Amount ∧ x.Amount ≤ cap) (hcap : cap < 2 ^ 63)
    (hr0 : 0 ≤ remainder) (hr : remainder < 2 ^ 63) :
    (fillLoop writeOk cap xs remainder calls).remainder
        + ((increaseDeltas (fillLoop writeOk cap xs remainder calls).calls).sum
          + (createdAmounts (fillLoop writeOk cap xs remainder calls).calls).sum)
      = remainder + ((increaseDeltas calls).sum + (createdAmounts calls).sum)
    ∧ 0 ≤ (fillLoop writeOk cap xs remainder calls).remainder
    ∧ (fillLoop writeOk cap xs remainder calls).remainder ≤ remainder := by
  induction xs generalizing remainder calls with
  | nil => exact ⟨rfl, hr0, le_refl _⟩
  | cons x rest ih =>
    have hx := hxs x (List.mem_cons_self _ _)
    have hroom : wrapInt64 (cap - x.Amount) = cap - x.Amount :=
      wrapInt64_eq _ (by omega) (by omega)
    simp only [fillLoop, hroom]
    by_cases hw : writeOk calls.length = true
    · rw [if_pos hw]
      have hd : 0 ≤ (if remainder ≥ cap - x.Amount then cap - x.Amount else remainder)
          ∧ (if remainder ≥ cap - x.Amount then cap - x.Amount else remainder) ≤ remainder := by
        by_cases h : remainder ≥ cap - x.Amount
        · rw [if_pos h]; omega
        · rw [if_neg h]; omega
      generalize (if remainder ≥ cap - x.Amount then cap - x.Amount else remainder) = d at hd ⊢
      rw [wrapInt64_eq (remainder - d) (by omega) (by omega)]
      obtain ⟨h1, h2, h3⟩ := ih (remainder - d) (calls ++ [RepoCall.IncreaseItemAmount x.Id d])
        (fun y hy => hxs y (List.mem_cons_of_mem _ hy)) (by omega) (by omega)
      refine ⟨?_, h2, by omega⟩
      rw [h1, placed_append]
      simp only [increaseDeltas, createdAmounts, List.filterMap_cons, List.filterMap_nil,
        List.sum_cons, List.sum_nil]
      ring
    · rw [if_neg hw]
      exact ⟨rfl, hr0, le_refl _⟩

theorem unstackableLoop_account (writeOk : Nat → Bool) (storageId itemId : String)
    (loops : Nat) (remainder : Int) (calls : List RepoCall) :
    (unstackableLoop writeOk storageId itemId loops remainder calls).remainder
        + ((increaseDeltas
            (unstackableLoop writeOk storageId itemId loops remainder calls).calls).sum
          + (createdAmounts
            (unstackableLoop writeOk storageId itemId loops remainder calls).calls).sum)
      = remainder + ((increaseDeltas calls).sum + (createdAmounts calls).sum) := by
  induction loops generalizing remainder calls with
  | zero => rfl
  | succ n ih =>
    simp only [unstackableLoop]
    by_cases hw : writeOk calls.length = true
    · rw [if_pos hw, ih, placed_append]
      simp [increaseDeltas, createdAmounts]
    · rw [if_neg hw]

theorem createLoop_account (writeOk : Nat → Bool) (storageId itemId : String)
    (amounts : List Int) (remainder : Int) (calls : List RepoCall) :
    (createLoop writeOk storageId itemId amounts remainder calls).remainder
        + ((increaseDeltas
            (createLoop writeOk storageId itemId amounts remainder calls).calls).sum
          + (createdAmounts
            (createLoop writeOk storageId itemId amounts remainder calls).calls).sum)
      = remainder + ((increaseDeltas calls).sum + (createdAmounts calls).sum) := by
  induction amounts generalizing remainder calls with
  | nil => rfl
  | cons a rest ih =>
    simp only [createLoop]
    by_cases hw : writeOk calls.length = true
    · rw [if_pos hw, ih, placed_append]
      simp [increaseDeltas, createdAmounts]
    · rw [if_neg hw]

/-- With the metadata of the catalog item embedded in the stacks of the item and no negative
amount in the storage, every stack the finder returns for a capped item holds an amount
between 0 and the cap. -/
theorem fillable_amounts (env : Env) (storageID itemID : String) (item : Item)
    (xs : List StorageItem)
    (hagree : ∀ storage, env.storageGet storageID = some storage →
      ∀ si ∈ storage.Items, (si.Item.Id = itemID → si.Item = item) ∧ 0 ≤ si.Amount)
    (hget : GetExistingStorageItems env storageID itemID = .ok xs)
    (hcap : item.StackMaxCount > 0) :
    ∀ x ∈ xs, 0 ≤ x.Amount ∧ x.Amount ≤ item.StackMaxCount := by
  intro x hx
  unfold GetExistingStorageItems at hget
  cases hst : env.storageGet storageID with
  | none => rw [hst] at hget; exact absurd hget (by simp)
  | some storage =>
    rw [hst] at hget
    simp only [Except.ok.injEq] at hget
    rw [existingLoop_eq_filter, List.nil_append] at hget
    rw [← hget, List.mem_filter] at hx
    have hfill := hx.2
    simp only [isFillable, isFull, Bool.and_eq_true, decide_eq_true_eq, Bool.not_eq_true',
      Bool.and_eq_false_imp, decide_eq_false_iff_not] at hfill
    have hitem := (hagree storage hst x hx.1).1 hfill.1
    have hnonneg := (hagree storage hst x hx.1).2
    have := hfill.2
    rw [hitem] at this
    have := this hcap
    omega

/-- The fill step on values of the data model, whatever writes fail: the remainder plus what
the writes have placed does not change, and the remainder stays between 0 and its starting
value. -/
theorem GiveToExistingStorageItems_account (env : Env) (storageID itemID : String)
    (remainder : Int) (item : Item) (calls : List RepoCall)
    (hagree : ∀ storage, env.storageGet storageID = some storage →
      ∀ si ∈ storage.Items, (si.Item.Id = itemID → si.Item = item) ∧ 0 ≤ si.Amount)
    (hcapmax : item.StackMaxCount < 2 ^ 63)
    (hr0 : 0 ≤ remainder) (hr : remainder < 2 ^ 63) :
    (GiveToExistingStorageItems env storageID itemID remainder item calls).remainder
        + ((increaseDeltas
            (GiveToExistingStorageItems env storageID itemID remainder item calls).calls).sum
          + (createdAmounts
            (GiveToExistingStorageItems env storageID itemID remainder item calls).calls).sum)
      = remainder + ((increaseDeltas calls).sum + (createdAmounts calls).sum)
    ∧ 0 ≤ (GiveToExistingStorageItems env storageID itemID remainder item calls).remainder
    ∧ (GiveToExistingStorageItems env storageID itemID remainder item calls).remainder
      ≤ remainder := by
  rcases GiveToExistingStorageItems_cases env storageID itemID remainder item calls with
    h | ⟨e, h⟩ | ⟨x, h⟩ | ⟨xs, hget, hcap, h⟩
  · rw [h]; exact ⟨rfl, hr0, le_refl _⟩
  · rw [h]; exact ⟨rfl, hr0, le_refl _⟩
  · rw [h]
    refine ⟨?_, le_refl _, hr0⟩
    dsimp only
    rw [placed_append]
    simp only [increaseDeltas, createdAmounts, List.filterMap_cons, List.filterMap_nil,
      List.sum_cons, List.sum_nil]
    ring
  · rw [h]
    exact fillLoop_account _ _ _ _ _
      (fillable_amounts env storageID itemID item xs hagree hget hcap) hcapmax hr0 hr

/-- Accounting: on values of the data model, at the end of the allocation steps, whatever
writes failed, the remainder plus what the writes have placed is the amount the steps started
from. -/
theorem giveItemSteps_account (env : Env) (req : GiveItemRequest) (item : Item)
    (remainder : Int)
    (hagree : ∀ storage, env.storageGet req.StorageId = some storage →
      ∀ si ∈ storage.Items, (si.Item.Id = req.ItemId → si.Item = item) ∧ 0 ≤ si.Amount)
    (hcapmax : item.StackMaxCount < 2 ^ 63)
    (hr0 : 0 ≤ remainder) (hr : remainder < 2 ^ 63) :
    (giveItemSteps env req item remainder).remainder
        + ((increaseDeltas (giveItemSteps env req item remainder).calls).sum
          + (createdAmounts (giveItemSteps env req item remainder).calls).sum)
      = remainder := by
  have hfill := (GiveToExistingStorageItems_account env req.StorageId req.ItemId remainder
    item [] hagree hcapmax hr0 hr).1
  unfold giveItemSteps
  generalize GiveToExistingStorageItems env req.StorageId req.ItemId remainder item [] = filled
    at hfill
  have hfill' : filled.remainder
      + ((increaseDeltas filled.calls).sum + (createdAmounts filled.calls).sum)
      = remainder := by
    simpa [increaseDeltas, createdAmounts] using hfill
  dsimp only
  cases hferr : filled.err with
  | some e => exact hfill'
  | none =>
    dsimp only
    by_cases hu : item.Stackable = false ∧ filled.remainder > 0
    · rw [if_pos hu]
      have hloop := unstackableLoop_account env.writeOk req.StorageId req.ItemId
        filled.remainder.toNat filled.remainder filled.calls
      generalize unstackableLoop env.writeOk req.StorageId req.ItemId filled.remainder.toNat
        filled.remainder filled.calls = unstacked at hloop
      cases hu2 : unstacked.err with
      | some e => dsimp only; omega
      | none =>
        dsimp only
        have hst : ¬ (item.Stackable = true ∧ unstacked.remainder > 0) := by
          rw [hu.1]; simp
        rw [if_neg hst]
        dsimp only
        omega
    · rw [if_neg hu]
      dsimp only
      by_cases hst : item.Stackable = true ∧ filled.remainder > 0
      · rw [if_pos hst]
        have hloop := createLoop_account env.writeOk req.StorageId req.ItemId
          (resultAmounts item filled.remainder) filled.remainder filled.calls
        omega
      · rw [if_neg hst]
        exact hfill'

theorem unstackableLoop_of_ok (writeOk : Nat → Bool) (storageId itemId : String) (loops : Nat)
    (remainder : Int) (calls : List RepoCall)
    (herr : (unstackableLoop writeOk storageId itemId loops remainder calls).err = none) :
    (unstackableLoop writeOk storageId itemId loops remainder calls).remainder
      = remainder - loops := by
  induction loops generalizing remainder calls with
  | zero => simp [unstackableLoop]
  | succ n ih =>
    simp only [unstackableLoop] at herr ⊢
    by_cases hw : writeOk calls.length = true
    · rw [if_pos hw] at herr ⊢
      rw [ih _ _ herr]
      push_cast
      ring
    · rw [if_neg hw] at herr
      exact absurd herr (by simp)

theorem createLoop_of_ok (writeOk : Nat → Bool) (storageId itemId : String)
    (amounts : List Int) (remainder : Int) (calls : List RepoCall)
    (herr : (createLoop writeOk storageId itemId amounts remainder calls).err = none) :
    (createLoop writeOk storageId itemId amounts remainder calls).remainder
      = remainder - amounts.sum := by
  induction amounts generalizing remainder calls with
  | nil => simp [createLoop]
  | cons a rest ih =>
    simp only [createLoop] at herr ⊢
    by_cases hw : writeOk calls.length = true
    · rw [if_pos hw] at herr ⊢
      rw [ih _ _ herr, List.sum_cons]
      ring
    · rw [if_neg hw] at herr
      exact absurd herr (by simp)

/-- New-stack allocation below `2 ^ 53`: for a leftover `0 < r < 2 ^ 53`, the planned amounts
are `[r]` when the cap is 0, and for a cap `0 < m < 2 ^ 53` they are `r / m` times `m`
followed by `r % m` (also when `r % m = 0`). -/
theorem resultAmounts_exact (item : Item) (remainder : Int) (hr0 : 0 < remainder)
    (hr : remainder < 2 ^ 53) :
    (item.StackMaxCount = 0 → resultAmounts item remainder = [remainder])
      ∧ (0 < item.StackMaxCount → item.StackMaxCount < 2 ^ 53 →
          resultAmounts item remainder
            = List.replicate (remainder / item.StackMaxCount).toNat item.StackMaxCount
              ++ [remainder % item.StackMaxCount]) := by
  constructor
  · intro h0
    simp [resultAmounts, h0]
  · intro hm0 hm
    have hne : item.StackMaxCount ≠ 0 := ne_of_gt hm0
    have hk := fullStacksToCreate_exact remainder item.StackMaxCount hr0 hr hm0 hm
    have hq : remainder / item.StackMaxCount ≤ remainder :=
      Int.ediv_le_self _ (le_of_lt hr0)
    have hk' : intOfFloat64 (fullStacksToCreate remainder item.StackMaxCount)
        = remainder / item.StackMaxCount := by
      unfold intOfFloat64
      rw [if_pos (by omega)]
      exact hk
    have hmod : remainder.tmod item.StackMaxCount = remainder % item.StackMaxCount :=
      Int.tmod_eq_emod (le_of_lt hr0) (le_of_lt hm0)
    simp only [resultAmounts, hne, if_false, hm0, gt_iff_lt, if_true, List.nil_append, hk', hmod]

/-- Below `2 ^ 53` the planned new stacks add up to the leftover, for any cap `≥ 0`. -/
theorem resultAmounts_sum (item : Item) (remainder : Int) (hr0 : 0 < remainder)
    (hr : remainder < 2 ^ 53) (hm0 : 0 ≤ item.StackMaxCount)
    (hm : item.StackMaxCount < 2 ^ 53) :
    (resultAmounts item remainder).sum = remainder := by
  rcases eq_or_lt_of_le hm0 with h | h
  · rw [(resultAmounts_exact item remainder hr0 hr).1 h.symm]
    simp
  · rw [(resultAmounts_exact item remainder hr0 hr).2 h hm]
    have hq : 0 ≤ remainder / item.StackMaxCount := Int.ediv_nonneg (le_of_lt hr0) hm0
    simp only [List.sum_append, List.sum_replicate, List.sum_cons, List.sum_nil, smul_eq_mul,
      add_zero, nsmul_eq_mul]
    rw [Int.toNat_of_nonneg hq]
    have := Int.ediv_add_emod remainder item.StackMaxCount
    linarith [mul_comm (remainder / item.StackMaxCount) item.StackMaxCount]

/-- Below `2 ^ 53`, with agreeing metadata and no negative amount in the storage, the
allocation steps that end without error leave a remainder `≥ 0`. -/
theorem giveItemSteps_remainder_nonneg (env : Env) (req : GiveItemRequest) (item : Item)
    (remainder : Int) (hr0 : 0 ≤ remainder) (hr : remainder < 2 ^ 53)
    (hm : item.StackMaxCount < 2 ^ 53)
    (hagree : ∀ storage, env.storageGet req.StorageId = some storage →
      ∀ si ∈ storage.Items, (si.Item.Id = req.ItemId → si.Item = item) ∧ 0 ≤ si.Amount) :
    (giveItemSteps env req item remainder).err = none →
      0 ≤ (giveItemSteps env req item remainder).remainder := by
  have hfill := (GiveToExistingStorageItems_account env req.StorageId req.ItemId remainder
    item [] hagree (by omega) hr0 (by omega)).2
  unfold giveItemSteps
  generalize GiveToExistingStorageItems env req.StorageId req.ItemId remainder item [] = filled
    at hfill
  dsimp only
  cases hferr : filled.err with
  | some e => intro h; exact absurd h (by simp)
  | none =>
    dsimp only
    by_cases hu : item.Stackable = false ∧ filled.remainder > 0
    · rw [if_pos hu]
      have hloop := unstackableLoop_of_ok env.writeOk req.StorageId req.ItemId
        filled.remainder.toNat filled.remainder filled.calls
      generalize unstackableLoop env.writeOk req.StorageId req.ItemId filled.remainder.toNat
        filled.remainder filled.calls = unstacked at hloop
      cases hu2 : unstacked.err with
      | some e => intro h; exact absurd h (by simp)
      | none =>
        dsimp only
        have hst : ¬ (item.Stackable = true ∧ unstacked.remainder > 0) := by
          rw [hu.1]; simp
        rw [if_neg hst]
        intro _
        have := hloop hu2
        dsimp only
        omega
    · rw [if_neg hu]
      dsimp only
      by_cases hst : item.Stackable = true ∧ filled.remainder > 0
      · rw [if_pos hst]
        intro herr
        rw [createLoop_of_ok _ _ _ _ _ _ herr]
        by_cases hm0 : 0 ≤ item.StackMaxCount
        · rw [resultAmounts_sum item filled.remainder hst.2 (by omega) hm0 hm]
          omega
        · have hne : item.StackMaxCount ≠ 0 := by omega
          have hnp : ¬ item.StackMaxCount > 0 := by omega
          simp only [resultAmounts, hne, if_false, hnp, List.sum_nil]
          omega
      · rw [if_neg hst]
        intro _
        exact hfill.1

/-- Conservation below `2 ^ 53`: for every storage without negative amounts whose embedded
metadata of the item agrees with the catalog item, every cap below `2 ^ 53` and every sampled
amount `0 ≤ amount < 2 ^ 53`, if `GiveItem` succeeds then the deltas passed to
`IncreaseItemAmount` plus the amounts of the created stacks add up to the sampled amount. -/
theorem GiveItem_conservation_below (env : Env) (req : GiveItemRequest) (item : Item)
    (resp : GiveItemResponse)
    (hitem : env.itemGet req.ItemId = some item)
    (hagree : ∀ storage, env.storageGet req.StorageId = some storage →
      ∀ si ∈ storage.Items, (si.Item.Id = req.ItemId → si.Item = item) ∧ 0 ≤ si.Amount)
    (hamount0 : 0 ≤ env.GenerateRandomInt req.MinAmount req.MaxAmount)
    (hamount : env.GenerateRandomInt req.MinAmount req.MaxAmount < 2 ^ 53)
    (hcap : item.StackMaxCount < 2 ^ 53)
    (hsuccess : (GiveItem env req).response = .ok resp) :
    (increaseDeltas (GiveItem env req).calls).sum + (createdAmounts (GiveItem env req).calls).sum
      = env.GenerateRandomInt req.MinAmount req.MaxAmount := by
  have hacc := giveItemSteps_account env req item
    (env.GenerateRandomInt req.MinAmount req.MaxAmount) hagree (by omega) hamount0 (by omega)
  have hnn := giveItemSteps_remainder_nonneg env req item
    (env.GenerateRandomInt req.MinAmount req.MaxAmount) hamount0 hamount hcap hagree
  unfold GiveItem at hsuccess ⊢
  by_cases hapi : env.checkAPI req.Api = true
  · simp only [hapi, Bool.not_true, Bool.false_eq_true, if_false, hitem] at hsuccess ⊢
    generalize giveItemSteps env req item (env.GenerateRandomInt req.MinAmount req.MaxAmount)
      = placed at hacc hnn hsuccess ⊢
    cases hperr : placed.err with
    | some e => rw [hperr] at hsuccess; exact absurd hsuccess (by simp)
    | none =>
      rw [hperr] at hsuccess
      dsimp only at hsuccess ⊢
      by_cases hpos : placed.remainder > 0
      · rw [if_pos hpos] at hsuccess
        exact absurd hsuccess (by simp)
      · rw [if_neg hpos]
        have := hnn hperr
        dsimp only
        omega
  · simp [hapi] at hsuccess

/-- Scenario B and scenario D below `2 ^ 53`: cap 10, `BALANCED_FILL_EXISTING_STACKS`, one
existing stack of 8, grant 5: an increase of 2 and one new stack of 3, which add up to 5;
cap 4, empty storage, grant 10: new stacks of 4, 4 and 2. -/
theorem GiveItem_conservation_below_witness :
    (increaseDeltas (GiveItem
        (scenarioEnv (scenarioItem true 10 StackBalancingMethod.BALANCED_FILL_EXISTING_STACKS)
          [⟨"a", scenarioItem true 10 StackBalancingMethod.BALANCED_FILL_EXISTING_STACKS, 8⟩])
        (scenarioReq 5)).calls).sum
      + (createdAmounts (GiveItem
        (scenarioEnv (scenarioItem true 10 StackBalancingMethod.BALANCED_FILL_EXISTING_STACKS)
          [⟨"a", scenarioItem true 10 StackBalancingMethod.BALANCED_FILL_EXISTING_STACKS, 8⟩])
        (scenarioReq 5)).calls).sum = 5
    ∧ (GiveItem
        (scenarioEnv (scenarioItem true 10 StackBalancingMethod.BALANCED_FILL_EXISTING_STACKS)
          [⟨"a", scenarioItem true 10 StackBalancingMethod.BALANCED_FILL_EXISTING_STACKS, 8⟩])
        (scenarioReq 5)).calls
      = [RepoCall.IncreaseItemAmount "a" 2, RepoCall.GiveItem "storage" "item" 3]
    ∧ createdAmounts (GiveItem
        (scenarioEnv (scenarioItem true 4 StackBalancingMethod.DEFAULT) [])
        (scenarioReq 10)).calls = [4, 4, 2] :=
  ⟨GiveItem_conservation_below
      (scenarioEnv (scenarioItem true 10 StackBalancingMethod.BALANCED_FILL_EXISTING_STACKS)
        [⟨"a", scenarioItem true 10 StackBalancingMethod.BALANCED_FILL_EXISTING_STACKS, 8⟩])
      (scenarioReq 5)
      (scenarioItem true 10 StackBalancingMethod.BALANCED_FILL_EXISTING_STACKS)
      ⟨"storage", 5⟩ rfl
      (by
        intro storage hst si hsi
        have : storage = ⟨[⟨"a", scenarioItem true 10
            StackBalancingMethod.BALANCED_FILL_EXISTING_STACKS, 8⟩]⟩ :=
          (Option.some.inj hst).symm
        subst this
        rw [List.mem_singleton.mp hsi]
        exact ⟨fun _ => rfl, by decide⟩)
      (by decide) (by decide) (by decide) (by decide),
    by decide, by decide⟩

/-- C1, at the failing input. Sampled amount `2 ^ 54 - 1`, stackable item with cap `2 ^ 53`
and balancing `DEFAULT`, empty storage, every collaborator succeeding: `float64` rounds the
amount to `2 ^ 54`, so two full stacks are planned where `(2 ^ 54 - 1) / 2 ^ 53 = 1`;
`GiveItem` creates stacks of `2 ^ 53`, `2 ^ 53` and `2 ^ 53 - 1` and succeeds, reporting the
amount `2 ^ 54 - 1`, while the created stacks add up to `3 * 2 ^ 53 - 1`. -/
theorem GiveItem_overallocates_at_two_pow_54 :
    GiveItem (scenarioEnv (scenarioItem true (2 ^ 53) StackBalancingMethod.DEFAULT) [])
        (scenarioReq (2 ^ 54 - 1))
      = ⟨.ok ⟨"storage", 2 ^ 54 - 1⟩,
          [RepoCall.GiveItem "storage" "item" (2 ^ 53),
           RepoCall.GiveItem "storage" "item" (2 ^ 53),
           RepoCall.GiveItem "storage" "item" (2 ^ 53 - 1)]⟩
    ∧ (increaseDeltas (GiveItem
          (scenarioEnv (scenarioItem true (2 ^ 53) StackBalancingMethod.DEFAULT) [])
          (scenarioReq (2 ^ 54 - 1))).calls).sum
        + (createdAmounts (GiveItem
          (scenarioEnv (scenarioItem true (2 ^ 53) StackBalancingMethod.DEFAULT) [])
          (scenarioReq (2 ^ 54 - 1))).calls).sum = 3 * 2 ^ 53 - 1
    ∧ (3 * 2 ^ 53 - 1 : Int) ≠ 2 ^ 54 - 1 := by
  decide

/-- C4, at the failing input. Leftover `r = 2 ^ 54 - 1` and cap `m = 2 ^ 53`:
`float64 r = 2 ^ 54`, so `math.Floor(float64(r) / float64(m))` is 2 while `r / m = 1`, and
the planned amounts are `m, m, r % m` instead of `m, r % m`. -/
theorem resultAmounts_at_two_pow_54 :
    float64 (2 ^ 54 - 1) = 2 ^ 54
    ∧ fullStacksToCreate (2 ^ 54 - 1) (2 ^ 53) = 2
    ∧ ((2 ^ 54 - 1 : Int) / 2 ^ 53 = 1 ∧ (2 ^ 54 - 1 : Int) % 2 ^ 53 = 2 ^ 53 - 1)
    ∧ resultAmounts (scenarioItem true (2 ^ 53) StackBalancingMethod.DEFAULT) (2 ^ 54 - 1)
      = [2 ^ 53, 2 ^ 53, 2 ^ 53 - 1] := by
  decide

/-- The conversion `int(fullStacksToCreate)` at the largest amount: leftover `2 ^ 63 - 1` and
cap 1: `float64` rounds the leftover to `2 ^ 63`, the quotient `2 ^ 63` does not fit and
converts to `-2 ^ 63`, so no full stack is planned, a single stack of amount 0 is created and
`GiveItem` fails on its final check. -/
theorem GiveItem_at_max_int64 :
    fullStacksToCreate (2 ^ 63 - 1) 1 = 2 ^ 63
    ∧ resultAmounts (scenarioItem true 1 StackBalancingMethod.DEFAULT) (2 ^ 63 - 1) = [0]
    ∧ GiveItem (scenarioEnv (scenarioItem true 1 StackBalancingMethod.DEFAULT) [])
        (scenarioReq (2 ^ 63 - 1))
      = ⟨.error "something went wrong", [RepoCall.GiveItem "storage" "item" 0]⟩ := by
  decide

end EconomyService
